import Mathlib

/-
Verification of the gos3rve S3-compatible gateway.

The development shallowly embeds the request-authentication engine
(utils.go), the request router (main.go and its revised copy), and the
object-store and multipart-upload layer (s3ops.go and its revised copy)
as executable Lean functions, and proves the frozen claims about them.

External cryptographic primitives (MD5, SHA-256, HMAC-SHA-256 from the Go
standard library) are modelled as function parameters: every theorem
quantifies over them, since the claims under verification concern the
composition and data flow around these primitives, not their internals.

Filesystem state is modelled as a finite association of paths to byte
contents plus a set of directory paths; byte strings are lists of Nat
(each below 256 at the points where the code produces them).
-/

set_option maxRecDepth 10000

/-! ## Basic string utilities, modelled on the Go standard library -/

/-- Splitting a character list on a separator character, accumulator style.
Mirrors Go strings.Split for a one-character separator. -/
def splitCharAux (sep : Char) : List Char → List Char → List String
  | [], acc => [String.mk acc.reverse]
  | c :: cs, acc =>
    if c = sep then String.mk acc.reverse :: splitCharAux sep cs []
    else splitCharAux sep cs (c :: acc)

/-- Go strings.Split with a one-character separator. -/
def splitChar (sep : Char) (s : String) : List String :=
  splitCharAux sep s.data []

/-- Go strings.SplitN with a one-character separator and n = 2. -/
def splitN2Aux (sep : Char) : List Char → List Char → List String
  | [], acc => [String.mk acc.reverse]
  | c :: cs, acc =>
    if c = sep then [String.mk acc.reverse, String.mk cs]
    else splitN2Aux sep cs (c :: acc)

def splitN2 (sep : Char) (s : String) : List String :=
  splitN2Aux sep s.data []

/-- Joining strings with a separator, mirroring Go strings.Join. -/
def joinStr (sep : String) : List String → String
  | [] => ""
  | [x] => x
  | x :: y :: xs => x ++ sep ++ joinStr sep (y :: xs)

/-- Concatenation of a list of strings. -/
def joinAll : List String → String
  | [] => ""
  | x :: xs => x ++ joinAll xs

/-- Go strings.TrimSpace (restricted to ASCII whitespace, which is all the
authentication header parsing ever meets after space removal). -/
def goTrim (s : String) : String :=
  String.mk (((s.data.dropWhile Char.isWhitespace).reverse.dropWhile Char.isWhitespace).reverse)

/-- Go strings.Replace of every occurrence of a single character by a string. -/
def goReplaceChar (c : Char) (r : String) (s : String) : String :=
  String.mk (s.data.flatMap (fun x => if x = c then r.data else [x]))

/-- Removal of all space characters, as done on the Authorization header. -/
def removeSpaces (s : String) : String := goReplaceChar ' ' "" s

/-- Fuelled substring replacement worker for Go strings.Replace with n = -1. -/
def replaceFuel (old new : List Char) : Nat → List Char → List Char
  | 0, s => s
  | _ + 1, [] => []
  | f + 1, c :: cs =>
    if old.isPrefixOf (c :: cs) then
      new ++ replaceFuel old new f (List.drop (old.length - 1) cs)
    else c :: replaceFuel old new f cs

/-- Go strings.Replace(s, old, new, -1).  When old is empty, Go inserts new
before every UTF-8 rune and once at the end. -/
def goReplaceStr (s old new : String) : String :=
  if old = "" then String.mk (new.data ++ s.data.flatMap (fun c => c :: new.data))
  else String.mk (replaceFuel old.data new.data s.data.length s.data)

/-- Go strings.Fields: whitespace-separated words, no empties. -/
def fieldsAux : List Char → List Char → List String
  | [], [] => []
  | [], acc => [String.mk acc.reverse]
  | c :: cs, acc =>
    if c.isWhitespace then
      (if acc = [] then fieldsAux cs [] else String.mk acc.reverse :: fieldsAux cs [])
    else fieldsAux cs (c :: acc)

def goFields (s : String) : List String := fieldsAux s.data []

/-- Lexicographic order on code points; equals Go byte-wise string order
because UTF-8 preserves code-point order. -/
def lexLe : List Char → List Char → Bool
  | [], _ => true
  | _ :: _, [] => false
  | a :: as, b :: bs =>
    if a.toNat < b.toNat then true
    else if b.toNat < a.toNat then false
    else lexLe as bs

def strLeB (a b : String) : Bool := lexLe a.data b.data

def insertSorted (x : String) : List String → List String
  | [] => [x]
  | y :: ys => if strLeB x y then x :: y :: ys else y :: insertSorted x ys

/-- Insertion sort; models Go sort.Strings. -/
def sortStrings : List String → List String
  | [] => []
  | x :: xs => insertSorted x (sortStrings xs)

def dedupSorted : List String → List String
  | [] => []
  | [x] => [x]
  | x :: y :: xs => if x == y then dedupSorted (y :: xs) else x :: dedupSorted (y :: xs)

def strToLower (s : String) : String := String.mk (s.data.map Char.toLower)

/-! ## Bytes, hex and UTF-8 -/

/-- Lowercase hex digit, as produced by Go encoding/hex. -/
def lowerHexDigit : Nat → Char
  | 0 => '0' | 1 => '1' | 2 => '2' | 3 => '3' | 4 => '4'
  | 5 => '5' | 6 => '6' | 7 => '7' | 8 => '8' | 9 => '9'
  | 10 => 'a' | 11 => 'b' | 12 => 'c' | 13 => 'd' | 14 => 'e' | 15 => 'f'
  | _ + 16 => '0'

/-- Uppercase hex digit, as produced by hex encoding followed by ToUpper. -/
def upperHexDigit : Nat → Char
  | 0 => '0' | 1 => '1' | 2 => '2' | 3 => '3' | 4 => '4'
  | 5 => '5' | 6 => '6' | 7 => '7' | 8 => '8' | 9 => '9'
  | 10 => 'A' | 11 => 'B' | 12 => 'C' | 13 => 'D' | 14 => 'E' | 15 => 'F'
  | _ + 16 => '0'

/-- Go hex.EncodeToString: lowercase, two digits per byte. -/
def hexEncode (bs : List Nat) : String :=
  String.mk (bs.flatMap (fun b => [lowerHexDigit (b / 16), lowerHexDigit (b % 16)]))

/-- UTF-8 encoding of one code point, as produced by Go utf8.EncodeRune on a
valid rune.  Lean chars are always valid scalar values, so the negative
RuneLen branch of the source is unreachable here. -/
def utf8Bytes (c : Char) : List Nat :=
  let n := c.toNat
  if n < 0x80 then [n]
  else if n < 0x800 then [0xC0 + n / 0x40, 0x80 + n % 0x40]
  else if n < 0x10000 then [0xE0 + n / 0x1000, 0x80 + n / 0x40 % 0x40, 0x80 + n % 0x40]
  else [0xF0 + n / 0x40000, 0x80 + n / 0x1000 % 0x40, 0x80 + n / 0x40 % 0x40, 0x80 + n % 0x40]

/-- Byte sequence of a string, the way Go views string contents. -/
def strBytes (s : String) : List Nat := s.data.flatMap utf8Bytes

/-! ## Error codes of the s3err error table -/

inductive ErrorCode where
  | ErrNone
  | ErrMissingFields
  | ErrMissingCredTag
  | ErrCredMalformed
  | ErrMalformedCredentialDate
  | ErrAuthHeaderEmpty
  | ErrSignatureVersionNotSupported
  | ErrMissingSignHeadersTag
  | ErrMissingSignTag
  | ErrUnsignedHeaders
  | ErrAccessDenied
  | ErrNoSuchBucket
  | ErrNoSuchKey
  | ErrInternalError
  | ErrSignatureDoesNotMatch
  | ErrExistingObjectIsDirectory
  | ErrExistingObjectIsFile
  | ErrInvalidBucketName
  | ErrBucketNotEmpty
  | ErrMalformedPOSTRequest
  | ErrInvalidRequest
deriving DecidableEq, Repr

/-! ## Time values and the two fixed layouts of the verifier -/

structure TimeT where
  year : Nat
  month : Nat
  day : Nat
  hour : Nat
  minute : Nat
  second : Nat
deriving DecidableEq, Repr

def isLeapYear (y : Nat) : Bool := (y % 4 = 0 ∧ y % 100 ≠ 0) ∨ y % 400 = 0

def daysInMonth (y m : Nat) : Nat :=
  if m = 2 then (if isLeapYear y then 29 else 28)
  else if m = 4 ∨ m = 6 ∨ m = 9 ∨ m = 11 then 30
  else 31

def digitVal (c : Char) : Option Nat :=
  if c.isDigit then some (c.toNat - 48) else none

def twoDigits (a b : Char) : Option Nat := do
  let x ← digitVal a
  let y ← digitVal b
  pure (10 * x + y)

def fourDigits (a b c d : Char) : Option Nat := do
  let x ← twoDigits a b
  let y ← twoDigits c d
  pure (100 * x + y)

/-- Go time.Parse with layout 20060102 (strict YYYYMMDD, ranges checked). -/
def parseYYYYMMDD (s : String) : Option TimeT :=
  match s.data with
  | [y1, y2, y3, y4, m1, m2, d1, d2] => do
    let y ← fourDigits y1 y2 y3 y4
    let m ← twoDigits m1 m2
    let d ← twoDigits d1 d2
    if 1 ≤ m ∧ m ≤ 12 ∧ 1 ≤ d ∧ d ≤ daysInMonth y m then
      pure ⟨y, m, d, 0, 0, 0⟩
    else none
  | _ => none

/-- Go time.Parse with layout 20060102T150405Z (the iso8601Format constant). -/
def parseISO8601 (s : String) : Option TimeT :=
  match s.data with
  | [y1, y2, y3, y4, m1, m2, d1, d2, tc, h1, h2, n1, n2, s1, s2, zc] => do
    if tc = 'T' ∧ zc = 'Z' then
      let y ← fourDigits y1 y2 y3 y4
      let m ← twoDigits m1 m2
      let d ← twoDigits d1 d2
      let hh ← twoDigits h1 h2
      let mm ← twoDigits n1 n2
      let ss ← twoDigits s1 s2
      if 1 ≤ m ∧ m ≤ 12 ∧ 1 ≤ d ∧ d ≤ daysInMonth y m ∧ hh ≤ 23 ∧ mm ≤ 59 ∧ ss ≤ 59 then
        pure ⟨y, m, d, hh, mm, ss⟩
      else none
    else none
  | _ => none

def pad2 (n : Nat) : String := if n < 10 then "0" ++ toString n else toString n

def pad4 (n : Nat) : String :=
  if n < 10 then "000" ++ toString n
  else if n < 100 then "00" ++ toString n
  else if n < 1000 then "0" ++ toString n
  else toString n

/-- Formatting with layout 20060102 (the yyyymmdd constant). -/
def formatYYYYMMDD (t : TimeT) : String := pad4 t.year ++ pad2 t.month ++ pad2 t.day

/-- Formatting with layout 20060102T150405Z (the iso8601Format constant). -/
def formatISO8601 (t : TimeT) : String :=
  formatYYYYMMDD t ++ "T" ++ pad2 t.hour ++ pad2 t.minute ++ pad2 t.second ++ "Z"

/-! ## HTTP request model

Headers model Go http.Header flattened: one entry per value, keys in
canonical MIME form, entries of one key in arrival order.  Query
parameters model the decoded r.URL.Query map the same way; rawQuery is
the undecoded query string used by the router. -/

structure HttpRequest where
  method : String
  path : String
  rawQuery : String
  queryParams : List (String × String)
  headers : List (String × String)
  host : String
  contentLength : Int
  transferEncoding : List String
  body : List Nat
deriving DecidableEq

/-- Character allowed in a MIME header token (Go validHeaderFieldByte). -/
def isTokenChar (c : Char) : Bool :=
  c.isAlphanum ∨ c ∈ ['!', '#', '$', '%', '&', '*', '+', '-', '.', '^', '_', '|', '~',
    Char.ofNat 39, Char.ofNat 96]

def canonKeyAux : Bool → List Char → List Char
  | _, [] => []
  | up, c :: cs =>
    (if up then c.toUpper else c.toLower) :: canonKeyAux (c = '-') cs

/-- Go textproto CanonicalMIMEHeaderKey. -/
def canonicalHeaderKey (s : String) : String :=
  if s.data.all isTokenChar then String.mk (canonKeyAux true s.data) else s

/-- Values stored under one canonical key, in order (the map entry slice). -/
def headerValues (r : HttpRequest) (canonKey : String) : List String :=
  r.headers.filterMap (fun kv => if kv.1 == canonKey then some kv.2 else none)

/-- Go http.Header.Get: canonicalise the key, first value or empty. -/
def headerGet (r : HttpRequest) (k : String) : String :=
  (headerValues r (canonicalHeaderKey k)).headD ""

/-- First value of an exact header key, as map indexing does. -/
def headerFirst? (r : HttpRequest) (k : String) : Option String :=
  (r.headers.find? (fun kv => kv.1 == k)).map (fun kv => kv.2)

/-- First value of a decoded query parameter, as map indexing does. -/
def queryFirst? (r : HttpRequest) (k : String) : Option String :=
  (r.queryParams.find? (fun kv => kv.1 == k)).map (fun kv => kv.2)

/-! ## Signature Verifier (utils.go) -/

def signV4Algorithm : String := "AWS4-HMAC-SHA256"

def emptySHA256 : String :=
  "e3b0c44298fc1c149afbf4c8996fb92427ae41e4649b934ca495991b7852b855"

def unsignedPayload : String := "UNSIGNED-PAYLOAD"

structure CredScope where
  date : TimeT
  region : String
  service : String
  request : String
deriving DecidableEq

structure CredentialHeader where
  accessKey : String
  scope : CredScope
deriving DecidableEq

/-- Scope string date/region/service/request. -/
def CredentialHeader.getScope (c : CredentialHeader) : String :=
  joinStr "/" [formatYYYYMMDD c.scope.date, c.scope.region, c.scope.service, c.scope.request]

structure SignValues where
  Credential : CredentialHeader
  SignedHeaders : List String
  Signature : String
deriving DecidableEq

/-- parseCredentialHeader from utils.go. -/
def parseCredentialHeader (credElement : String) : Except ErrorCode CredentialHeader :=
  let creds := splitChar '=' (goTrim credElement)
  if creds.length ≠ 2 then .error .ErrMissingFields
  else if creds.headD "" ≠ "Credential" then .error .ErrMissingCredTag
  else
    let credElements := splitChar '/' (goTrim ((creds.drop 1).headD ""))
    if credElements.length ≠ 5 then .error .ErrCredMalformed
    else
      match parseYYYYMMDD ((credElements.drop 1).headD "") with
      | none => .error .ErrMalformedCredentialDate
      | some d =>
        .ok { accessKey := credElements.headD ""
              scope := { date := d
                         region := (credElements.drop 2).headD ""
                         service := (credElements.drop 3).headD ""
                         request := (credElements.drop 4).headD "" } }

/-- parseSignedHeader from utils.go. -/
def parseSignedHeader (signedHdrElement : String) : Except ErrorCode (List String) :=
  let fields := splitChar '=' (goTrim signedHdrElement)
  if fields.length ≠ 2 then .error .ErrMissingFields
  else if fields.headD "" ≠ "SignedHeaders" then .error .ErrMissingSignHeadersTag
  else if (fields.drop 1).headD "" = "" then .error .ErrMissingFields
  else .ok (splitChar ';' ((fields.drop 1).headD ""))

/-- parseSignature from utils.go. -/
def parseSignature (signElement : String) : Except ErrorCode String :=
  let fields := splitChar '=' (goTrim signElement)
  if fields.length ≠ 2 then .error .ErrMissingFields
  else if fields.headD "" ≠ "Signature" then .error .ErrMissingSignTag
  else if (fields.drop 1).headD "" = "" then .error .ErrMissingFields
  else .ok ((fields.drop 1).headD "")

/-- parseSignV4 from utils.go: space removal, algorithm check, three
comma-separated fields in fixed order. -/
def parseSignV4 (v4AuthIn : String) : Except ErrorCode SignValues :=
  let v4Auth := removeSpaces v4AuthIn
  if v4Auth = "" then .error .ErrAuthHeaderEmpty
  else if ¬ signV4Algorithm.data.isPrefixOf v4Auth.data then
    .error .ErrSignatureVersionNotSupported
  else
    let rest := String.mk (v4Auth.data.drop signV4Algorithm.data.length)
    let authFields := splitChar ',' (goTrim rest)
    if authFields.length ≠ 3 then .error .ErrMissingFields
    else
      match parseCredentialHeader (authFields.headD "") with
      | .error e => .error e
      | .ok cred =>
        match parseSignedHeader ((authFields.drop 1).headD "") with
        | .error e => .error e
        | .ok shs =>
          match parseSignature ((authFields.drop 2).headD "") with
          | .error e => .error e
          | .ok sig => .ok { Credential := cred, SignedHeaders := shs, Signature := sig }

/-- http.Header.Add on the canonical-keyed flat representation. -/
def addHeader (h : List (String × String)) (k v : String) : List (String × String) :=
  h ++ [(canonicalHeaderKey k, v)]

/-- http.Header.Set on the canonical-keyed flat representation. -/
def setHeader (h : List (String × String)) (k v : String) : List (String × String) :=
  (h.filter (fun kv => kv.1 != canonicalHeaderKey k)) ++ [(canonicalHeaderKey k, v)]

def extractSignedHeadersAux (r : HttpRequest) (acc : List (String × String)) :
    List String → Except ErrorCode (List (String × String))
  | [] => .ok acc
  | h :: rest =>
    match headerValues r (canonicalHeaderKey h) with
    | [] =>
      if h = "expect" then
        extractSignedHeadersAux r (setHeader acc h "100-continue") rest
      else if h = "host" then
        extractSignedHeadersAux r (setHeader acc h r.host) rest
      else if h = "transfer-encoding" then
        extractSignedHeadersAux r (r.transferEncoding.foldl (fun a v => addHeader a h v) acc) rest
      else if h = "content-length" then
        extractSignedHeadersAux r (setHeader acc h (toString r.contentLength)) rest
      else .error .ErrUnsignedHeaders
    | vs => extractSignedHeadersAux r (vs.foldl (fun a v => addHeader a h v) acc) rest

/-- extractSignedHeaders from utils.go: host must be signed; four header
names receive special fallback values when absent from the header map. -/
def extractSignedHeaders (signedHeaders : List String) (r : HttpRequest) :
    Except ErrorCode (List (String × String)) :=
  if ¬ signedHeaders.contains "host" then .error .ErrUnsignedHeaders
  else extractSignedHeadersAux r [] signedHeaders

/-- signV4TrimAll from utils.go: collapse whitespace runs, trim ends. -/
def signV4TrimAll (input : String) : String := joinStr " " (goFields input)

/-- Values of the extracted header map under one lowercased name. -/
def lookupLowerAll (sh : List (String × String)) (k : String) : List String :=
  sh.filterMap (fun kv => if strToLower kv.1 == k then some kv.2 else none)

/-- Distinct lowercased names of the extracted header map. -/
def lowerNames (sh : List (String × String)) : List String :=
  dedupSorted (sortStrings (sh.map (fun kv => strToLower kv.1)))

/-- getCanonicalHeaders from utils.go: lowercase names, sorted, values
joined with commas after whitespace trimming, newline-terminated lines. -/
def getCanonicalHeaders (sh : List (String × String)) : String :=
  joinAll ((lowerNames sh).map
    (fun k => k ++ ":" ++ joinStr "," ((lookupLowerAll sh k).map signV4TrimAll) ++ "\n"))

/-- getSignedHeaders from utils.go: sorted semicolon-joined lowercase names. -/
def getSignedHeaders (sh : List (String × String)) : String :=
  joinStr ";" (lowerNames sh)

/-- reservedObjectNames regex of utils.go. -/
def isUnreservedPathChar (c : Char) : Bool :=
  (('A' ≤ c ∧ c ≤ 'Z') ∨ ('a' ≤ c ∧ c ≤ 'z') ∨ ('0' ≤ c ∧ c ≤ '9'))
  ∨ c = '-' ∨ c = '_' ∨ c = '.' ∨ c = '~' ∨ c = '/'

def reservedObjectNamesMatch (s : String) : Bool :=
  s ≠ "" ∧ s.data.all isUnreservedPathChar

/-- Percent-encoding of one byte, uppercase, as encodePath produces. -/
def percentByte (b : Nat) : List Char :=
  ['%', upperHexDigit (b / 16), upperHexDigit (b % 16)]

/-- Per-code-point step of encodePath. -/
def encodePathChar (c : Char) : List Char :=
  if isUnreservedPathChar c then [c] else (utf8Bytes c).flatMap percentByte

/-- encodePath from utils.go: identity on the reserved-name regex,
otherwise per-code-point percent-encoding of the UTF-8 bytes. -/
def encodePath (pathName : String) : String :=
  if reservedObjectNamesMatch pathName then pathName
  else String.mk (pathName.data.flatMap encodePathChar)

/-- getCanonicalRequest from utils.go. -/
def getCanonicalRequest (extractedSignedHeaders : List (String × String))
    (payload queryStr urlPath method : String) : String :=
  let rawQuery := goReplaceChar '+' "%20" queryStr
  let encodedPath := encodePath urlPath
  joinStr "\n" [method, encodedPath, rawQuery,
    getCanonicalHeaders extractedSignedHeaders,
    getSignedHeaders extractedSignedHeaders, payload]

section Crypto

variable (sha256Hash : List Nat → List Nat)
variable (hmacSha256 : List Nat → List Nat → List Nat)

/-- getStringToSign from utils.go. -/
def getStringToSign (canonicalRequest : String) (t : TimeT) (scope : String) : String :=
  signV4Algorithm ++ "\n" ++ formatISO8601 t ++ "\n" ++ scope ++ "\n"
    ++ hexEncode (sha256Hash (strBytes canonicalRequest))

/-- sumHMAC from utils.go. -/
def sumHMAC (key data : List Nat) : List Nat := hmacSha256 key data

/-- getSigningKey from utils.go: the four-step HMAC chain. -/
def getSigningKey (secretKey time region service : String) : List Nat :=
  let date := sumHMAC hmacSha256 (strBytes ("AWS4" ++ secretKey)) (strBytes time)
  let regionBytes := sumHMAC hmacSha256 date (strBytes region)
  let serviceBytes := sumHMAC hmacSha256 regionBytes (strBytes service)
  sumHMAC hmacSha256 serviceBytes (strBytes "aws4_request")

/-- getSignature from utils.go: hex HMAC of the string to sign under the
signing key derived from the date of the given time value. -/
def getSignature (secretKey : String) (t : TimeT) (region service stringToSign : String) : String :=
  hexEncode (hmacSha256 (getSigningKey hmacSha256 secretKey (formatYYYYMMDD t) region service)
    (strBytes stringToSign))

end Crypto

/-- isRequestPresignedSignatureV4 from utils.go: the decoded query carries
an X-Amz-Credential key. -/
def isRequestPresignedSignatureV4 (r : HttpRequest) : Bool :=
  (queryFirst? r "X-Amz-Credential").isSome

/-- getContentSha256Cksum from utils.go: query first for presigned
requests with the unsigned-payload sentinel as default, header only for
ordinary requests with the empty-body hash as default. -/
def getContentSha256Cksum (r : HttpRequest) : String :=
  if isRequestPresignedSignatureV4 r then
    match queryFirst? r "X-Amz-Content-Sha256" with
    | some v => v
    | none =>
      match headerFirst? r "X-Amz-Content-Sha256" with
      | some v => v
      | none => unsignedPayload
  else
    match headerFirst? r "X-Amz-Content-Sha256" with
    | some v => v
    | none => emptySHA256

/-- subtle.ConstantTimeCompare: length check, then a single full pass
OR-accumulating byte XORs; 1 exactly when all bytes agree. -/
def constantTimeCompare (x y : List Nat) : Nat :=
  if x.length ≠ y.length then 0
  else if (x.zip y).foldl (fun v ab => v ||| (ab.1 ^^^ ab.2)) 0 = 0 then 1 else 0

/-- compareSignatureV4 from utils.go. -/
def compareSignatureV4 (sig1 sig2 : String) : Bool :=
  constantTimeCompare (strBytes sig1) (strBytes sig2) == 1

/-- Percent-escaping of one byte by Go url.QueryEscape. -/
def queryEscapeByte (b : Nat) : List Char :=
  if (48 ≤ b ∧ b ≤ 57) ∨ (65 ≤ b ∧ b ≤ 90) ∨ (97 ≤ b ∧ b ≤ 122)
      ∨ b = 45 ∨ b = 46 ∨ b = 95 ∨ b = 126 then [Char.ofNat b]
  else if b = 32 then ['+']
  else percentByte b

/-- Go url.QueryEscape, operating on UTF-8 bytes. -/
def queryEscape (s : String) : String :=
  String.mk ((strBytes s).flatMap queryEscapeByte)

/-- Go url.Values.Encode: keys sorted, repeated values in order. -/
def encodeQuery (qp : List (String × String)) : String :=
  let ks := dedupSorted (sortStrings (qp.map (fun kv => kv.1)))
  joinStr "&" (ks.flatMap (fun k =>
    (qp.filterMap (fun kv => if kv.1 == k then some kv.2 else none)).map
      (fun v => queryEscape k ++ "=" ++ queryEscape v)))

/-! ## authenticate (utils.go) and the request gate (part_001 handleRequest) -/

structure Config where
  keyId : String
  secretKey : String
  s3region : String
deriving DecidableEq

/-- Date header selection of authenticate: X-Amz-Date, then Date. -/
def requestDateString (r : HttpRequest) : String :=
  if headerGet r "X-Amz-Date" ≠ "" then headerGet r "X-Amz-Date" else headerGet r "Date"

section Auth

variable (sha256Hash : List Nat → List Nat)
variable (hmacSha256 : List Nat → List Nat → List Nat)

/-- Payload hash value that authenticate feeds into the canonical request:
the getContentSha256Cksum resolution, except that for a credential scope
whose service is not s3, an empty-body default and a nonempty body, the
body itself is hashed instead. -/
def payloadHashUsed (r : HttpRequest) (credService : String) : String :=
  let hashedPayload := getContentSha256Cksum r
  if credService ≠ "s3" ∧ hashedPayload = emptySHA256 ∧ r.body ≠ [] then
    hexEncode (sha256Hash r.body)
  else hashedPayload

/-- Signature recomputed by authenticate for a parsed header, extracted
signed headers and parsed date header, using the current server time for
signing-key derivation as the source does. -/
def expectedSignatureV4 (cfg : Config) (now : TimeT) (r : HttpRequest)
    (sv : SignValues) (extracted : List (String × String)) (t : TimeT) : String :=
  let hashedPayload := payloadHashUsed sha256Hash r sv.Credential.scope.service
  let queryStr := encodeQuery r.queryParams
  let canonicalRequest := getCanonicalRequest extracted hashedPayload queryStr r.path r.method
  let stringToSign := getStringToSign sha256Hash canonicalRequest t sv.Credential.getScope
  getSignature hmacSha256 cfg.secretKey now sv.Credential.scope.region
    sv.Credential.scope.service stringToSign

/-- authenticate from utils.go: parse the Authorization header, extract
signed headers, check the access key, parse the date header, recompute the
signature and compare in constant time.  Returns the (bool, error) pair of
the source. -/
def authenticate (cfg : Config) (now : TimeT) (r : HttpRequest) : Bool × Option String :=
  match parseSignV4 (headerGet r "Authorization") with
  | .error _ => (false, some "prob parsing v4 signature")
  | .ok signV4Values =>
    match extractSignedHeaders signV4Values.SignedHeaders r with
    | .error _ => (false, some "prob extracting headers")
    | .ok extractedSignedHeaders =>
      if signV4Values.Credential.accessKey ≠ cfg.keyId then (false, some "bad key")
      else if requestDateString r = "" then (false, some "ErrMissingDateHeader")
      else
        match parseISO8601 (requestDateString r) with
        | none => (false, some "ErrMalformedDate")
        | some t =>
          if compareSignatureV4
              (expectedSignatureV4 sha256Hash hmacSha256 cfg now r signV4Values
                extractedSignedHeaders t)
              signV4Values.Signature
          then (true, none)
          else (false, some "ErrSignatureDoesNotMatch")

end Auth

/-- Response abstraction: either the uniform XML error document of s3err,
or ordinary content with a status, optional ETag header and body bytes. -/
inductive Resp where
  | errorDoc (code : ErrorCode)
  | content (status : Nat) (etag : Option String) (body : List Nat)
deriving DecidableEq

/-! ## Filesystem state -/

structure Fs where
  files : List (String × List Nat)
  dirs : List String
deriving DecidableEq

def Fs.getFile (fs : Fs) (p : String) : Option (List Nat) :=
  (fs.files.find? (fun kv => kv.1 == p)).map (fun kv => kv.2)

def setEntries (p : String) (v : List Nat) : List (String × List Nat) → List (String × List Nat)
  | [] => [(p, v)]
  | kv :: rest => if kv.1 == p then (p, v) :: rest else kv :: setEntries p v rest

def Fs.setFile (fs : Fs) (p : String) (v : List Nat) : Fs :=
  { fs with files := setEntries p v fs.files }

def Fs.removeFile (fs : Fs) (p : String) : Fs :=
  { fs with files := fs.files.filter (fun kv => kv.1 != p) }

def Fs.isDir (fs : Fs) (p : String) : Bool := fs.dirs.contains p

def Fs.addDir (fs : Fs) (p : String) : Fs := { fs with dirs := p :: fs.dirs }

/-- handleRequest from the revised router: authentication gates every
storage operation.  The method switch body is the dispatch argument; on
any authentication failure the uniform access-denied document is written
and the filesystem is neither read nor changed. -/
def handleRequest (sha256Hash : List Nat → List Nat)
    (hmacSha256 : List Nat → List Nat → List Nat) (cfg : Config) (now : TimeT)
    (dispatch : HttpRequest → Fs → Resp × Fs) (r : HttpRequest) (fs : Fs) : Resp × Fs :=
  let a := authenticate sha256Hash hmacSha256 cfg now r
  if a.2.isSome || !a.1 then (Resp.errorDoc .ErrAccessDenied, fs)
  else dispatch r fs

/-! ## Lexical path functions (Go path/filepath, Unix rules) -/

/-- Stack step of path cleaning; the stack is kept reversed. -/
def cleanStack (rooted : Bool) : List String → List String → List String
  | st, [] => st
  | st, c :: cs =>
    if c = "" ∨ c = "." then cleanStack rooted st cs
    else if c = ".." then
      match st with
      | t :: st2 =>
        if t = ".." then cleanStack rooted (".." :: t :: st2) cs
        else cleanStack rooted st2 cs
      | [] => if rooted then cleanStack rooted [] cs else cleanStack rooted [".."] cs
    else cleanStack rooted (c :: st) cs

/-- Go filepath.Clean for slash-separated paths. -/
def cleanPath (p : String) : String :=
  if p = "" then "."
  else
    let rooted := p.data.headD ' ' == '/'
    let comps := splitChar '/' p
    let st := (cleanStack rooted [] comps).reverse
    if rooted then "/" ++ joinStr "/" st
    else if st = [] then "." else joinStr "/" st

/-- Go filepath.Join of two elements: skip empties, then Clean. -/
def joinPath (a b : String) : String :=
  if a = "" ∧ b = "" then ""
  else if a = "" then cleanPath b
  else if b = "" then cleanPath a
  else cleanPath (a ++ "/" ++ b)

/-- Go filepath.Dir: clean of everything up to the final slash. -/
def goDir (p : String) : String :=
  cleanPath (String.mk ((p.data.reverse.dropWhile (fun c => c ≠ '/')).reverse))

/-- Go filepath.Base: final element after stripping trailing slashes. -/
def goBase (p : String) : String :=
  if p = "" then "."
  else
    let cs := p.data.reverse.dropWhile (fun c => c = '/')
    if cs = [] then "/" else String.mk ((cs.takeWhile (fun c => c ≠ '/')).reverse)

/-! ## Router path extraction (main.go extractBucketAndKey) -/

def lookupParamD (params : List (String × String)) (k : String) : String :=
  ((params.find? (fun kv => kv.1 == k)).map (fun kv => kv.2)).getD ""

def setParam (params : List (String × String)) (k v : String) : List (String × String) :=
  (params.filter (fun kv => kv.1 != k)) ++ [(k, v)]

/-- Query token loop of extractBucketAndKey.  Splitting a token on the
equals sign and indexing element 1 panics in Go when the token carries no
equals sign; the panic is modelled as none. -/
def parseQueryTokens (params : List (String × String)) :
    List String → Option (List (String × String))
  | [] => some params
  | arg :: rest =>
    let p := splitChar '=' arg
    if p.length < 2 then none
    else parseQueryTokens (setParam params (p.headD "") ((p.drop 1).headD "")) rest

/-- extractBucketAndKey from main.go: bucket is the first path segment,
key the remainder; with no key and a nonempty raw query, the key is
rebuilt from the prefix and delimiter parameters. -/
def extractBucketAndKey (urlPath rawQuery : String) :
    Option (String × String × List (String × String)) :=
  let parts := splitN2 '/' (String.mk (urlPath.data.drop 1))
  let bucket := parts.headD ""
  let key := (parts.drop 1).headD ""
  if key = "" ∧ rawQuery ≠ "" then
    match parseQueryTokens [] (splitChar '&' rawQuery) with
    | none => none
    | some params =>
      some (bucket,
        goReplaceStr (lookupParamD params "prefix") (lookupParamD params "delimiter") "/",
        params)
  else some (bucket, key, [])

/-- Path the PUT and POST handlers operate on: the bucket directory joined
below the configured root, then the object key joined below that. -/
def resolvedObjectPath (root bucketName objectKey : String) : String :=
  joinPath (joinPath root bucketName) objectKey

/-- Confinement: p is the directory itself or strictly below it. -/
def isUnder (dir p : String) : Bool :=
  p == dir || (dir ++ "/").data.isPrefixOf p.data

/-! ## Object store and multipart coordinator (part_000) -/

def pathPrefixesAux (acc : String) : List String → List String
  | [] => []
  | c :: cs =>
    let acc2 := if acc = "" then c else acc ++ "/" ++ c
    acc2 :: pathPrefixesAux acc2 cs

/-- Successive ancestor paths created by os.MkdirAll. -/
def pathPrefixes (p : String) : List String := pathPrefixesAux "" (splitChar '/' p)

/-- os.MkdirAll: fails when an ancestor is a regular file, otherwise
ensures every ancestor directory exists. -/
def mkdirAll (fs : Fs) (dir : String) : Option Fs :=
  if (pathPrefixes dir).any (fun q => (fs.getFile q).isSome) then none
  else some { fs with dirs := fs.dirs ++ pathPrefixes dir }

inductive PutOutcome where
  | createdDir
  | conflictDir
  | created (etag : String)
  | internalError
deriving DecidableEq

section Store

variable (md5Hash : List Nat → List Nat)

/-- putObject from part_000.  A directory-marker request creates the
directory when the path is unoccupied (os.Mkdir needs the parent) and
answers 409 whenever os.Stat finds anything at the path; a file request
rewrites the path for multipart part uploads, ensures parent directories,
truncates or creates the file, streams the body while hashing it, and
answers 201 with the hex digest as ETag. -/
def putObject (fs : Fs) (path : String) (is_dir : Bool) (isMulti : Bool)
    (uploadId partNumber : String) (body : List Nat) : PutOutcome × Fs :=
  if is_dir then
    if (fs.getFile path).isNone ∧ ¬ fs.isDir path then
      if fs.isDir (goDir path) then (.createdDir, fs.addDir path)
      else (.internalError, fs)
    else (.conflictDir, fs)
  else
    let path := if isMulti then
        goDir path ++ "/" ++ uploadId ++ "_" ++ partNumber ++ "_" ++ goBase path
      else path
    match mkdirAll fs (goDir path) with
    | none => (.internalError, fs)
    | some fs1 =>
      if fs1.isDir path then (.internalError, fs)
      else (.created (hexEncode (md5Hash body)), fs1.setFile path body)

inductive GetOutcome where
  | noSuchKey
  | internalError
  | ok (etag : String) (body : List Nat)
deriving DecidableEq

/-- getObject from part_000: stat, read the full content, recompute the
MD5 digest of the content read, answer it as the ETag with the body. -/
def getObject (fs : Fs) (filePath : String) : GetOutcome :=
  if (fs.getFile filePath).isNone ∧ ¬ fs.isDir filePath then .noSuchKey
  else
    match fs.getFile filePath with
    | some content => .ok (hexEncode (md5Hash content)) content
    | none => .internalError

structure XmlPart where
  PartNumber : Int
  ETag : String
deriving DecidableEq

/-- Temp part filename convention of finilizeMultipartUpload and
putObject: directory of the destination, uploadId, part number and the
destination base name joined with underscores. -/
def srcPartFile (dstFilePath uploadId : String) (partNumber : Int) : String :=
  goDir dstFilePath ++ "/" ++ uploadId ++ "_" ++ toString partNumber ++ "_" ++ goBase dstFilePath

inductive FinOutcome where
  | success
  | openFailed
  | readFailed
  | hashMismatch
deriving DecidableEq

/-- Per-manifest-entry loop of finilizeMultipartUpload: read the part
file, recompute its MD5, stop with the signature-mismatch error document
on an ETag difference, append to the destination, delete the part file
and carry on even when the delete fails. -/
def finilizeLoop (fs : Fs) (dstFilePath uploadId : String)
    (removeFails : String → Bool) : List XmlPart → FinOutcome × Fs
  | [] => (.success, fs)
  | part :: rest =>
    let srcFile := srcPartFile dstFilePath uploadId part.PartNumber
    match fs.getFile srcFile with
    | none => (.readFailed, fs)
    | some content =>
      let hashStr := hexEncode (md5Hash content)
      if part.ETag ≠ hashStr then (.hashMismatch, fs)
      else
        let fs1 := fs.setFile dstFilePath ((fs.getFile dstFilePath).getD [] ++ content)
        let fs2 := if removeFails srcFile then fs1 else fs1.removeFile srcFile
        finilizeLoop fs2 dstFilePath uploadId removeFails rest

/-- finilizeMultipartUpload from part_000, after the request body has been
parsed into the ordered manifest: open the destination with truncate and
create flags (fails on a directory or a missing parent directory), then
run the manifest loop. -/
def finilizeMultipartUpload (fs : Fs) (bucketPath objectKey uploadId : String)
    (manifest : List XmlPart) (removeFails : String → Bool) : FinOutcome × Fs :=
  let dstFilePath := joinPath bucketPath objectKey
  if fs.isDir dstFilePath ∨ ((fs.getFile dstFilePath).isNone ∧ ¬ fs.isDir (goDir dstFilePath)) then
    (.openFailed, fs)
  else
    finilizeLoop md5Hash (fs.setFile dstFilePath []) dstFilePath uploadId removeFails manifest

end Store

/-! ## Lemmas about the filesystem model -/

theorem find_setEntries_self (p : String) (v : List Nat) (l : List (String × List Nat)) :
    List.find? (fun kv => kv.1 == p) (setEntries p v l) = some (p, v) := by
  induction l with
  | nil => simp [setEntries]
  | cons kv rest ih =>
    unfold setEntries
    cases hb : (kv.1 == p) with
    | true => simp [List.find?]
    | false => simp [List.find?, hb, ih]

theorem find_setEntries_ne (p q : String) (v : List Nat) (h : q ≠ p)
    (l : List (String × List Nat)) :
    List.find? (fun kv => kv.1 == q) (setEntries p v l) = List.find? (fun kv => kv.1 == q) l := by
  induction l with
  | nil =>
    have h1 : (p == q) = false := by simpa using Ne.symm h
    simp [setEntries, List.find?, h1]
  | cons kv rest ih =>
    unfold setEntries
    cases hb : (kv.1 == p) with
    | true =>
      have hkvp : kv.1 = p := by simpa using hb
      have h1 : (p == q) = false := by simpa using Ne.symm h
      have h2 : (kv.1 == q) = false := by simp [hkvp]; exact Ne.symm h
      simp [List.find?, h1, h2]
    | false =>
      cases hq : (kv.1 == q) with
      | true => simp [List.find?, hq]
      | false => simp [List.find?, hq, hb, ih]

theorem getFile_setFile_self (fs : Fs) (p : String) (v : List Nat) :
    (fs.setFile p v).getFile p = some v := by
  show (List.find? _ (setEntries p v fs.files)).map _ = some v
  rw [find_setEntries_self]
  rfl

theorem getFile_setFile_ne (fs : Fs) (p q : String) (v : List Nat) (h : q ≠ p) :
    (fs.setFile p v).getFile q = fs.getFile q := by
  show (List.find? _ (setEntries p v fs.files)).map _ = _
  rw [find_setEntries_ne p q v h]
  rfl

theorem find_filter_ne (p q : String) (h : q ≠ p) (l : List (String × List Nat)) :
    List.find? (fun kv => kv.1 == q) (l.filter (fun kv => kv.1 != p))
      = List.find? (fun kv => kv.1 == q) l := by
  induction l with
  | nil => rfl
  | cons kv rest ih =>
    cases hq : (kv.1 == q) with
    | true =>
      have hkvq : kv.1 = q := by simpa using hq
      have hne : (kv.1 != p) = true := by simp [hkvq]; exact h
      simp only [List.filter_cons, hne, if_true]
      simp [List.find?, hq]
    | false =>
      by_cases hp : (kv.1 != p) = true
      · simp only [List.filter_cons, hp, if_true]
        simp [List.find?, hq, ih]
      · simp only [List.filter_cons, hp, if_false]
        simp [List.find?, hq, ih]

theorem getFile_removeFile_ne (fs : Fs) (p q : String) (h : q ≠ p) :
    (fs.removeFile p).getFile q = fs.getFile q := by
  show (List.find? _ (fs.files.filter _)).map _ = _
  rw [find_filter_ne p q h]
  rfl

theorem getFile_removeFile_self (fs : Fs) (p : String) :
    (fs.removeFile p).getFile p = none := by
  show (List.find? _ (fs.files.filter _)).map _ = none
  have hnone : List.find? (fun kv => kv.1 == p) (fs.files.filter (fun kv => kv.1 != p)) = none := by
    rw [List.find?_eq_none]
    intro kv hmem
    have := (List.mem_filter.mp hmem).2
    simpa using this
  rw [hnone]
  rfl

theorem isDir_setFile (fs : Fs) (p : String) (v : List Nat) (q : String) :
    (fs.setFile p v).isDir q = fs.isDir q := rfl

theorem isDir_removeFile (fs : Fs) (p q : String) :
    (fs.removeFile p).isDir q = fs.isDir q := rfl

/-! ## Constant-time comparison decides byte equality -/

theorem natOr_eq_zero (m n : Nat) : m ||| n = 0 ↔ m = 0 ∧ n = 0 := by
  constructor
  · intro h
    have hbits : ∀ i, (m.testBit i || n.testBit i) = false := by
      intro i
      have := congrArg (fun x => Nat.testBit x i) h
      simpa [Nat.testBit_lor] using this
    constructor
    · exact Nat.zero_of_testBit_eq_false fun i => (Bool.or_eq_false_iff.mp (hbits i)).1
    · exact Nat.zero_of_testBit_eq_false fun i => (Bool.or_eq_false_iff.mp (hbits i)).2
  · rintro ⟨rfl, rfl⟩
    rfl

theorem orFold_eq_zero (l : List (Nat × Nat)) (a : Nat) :
    l.foldl (fun v ab => v ||| (ab.1 ^^^ ab.2)) a = 0 ↔ a = 0 ∧ ∀ p ∈ l, p.1 = p.2 := by
  induction l generalizing a with
  | nil => simp
  | cons ab l ih =>
    rw [List.foldl_cons, ih]
    constructor
    · rintro ⟨h1, h2⟩
      rcases (natOr_eq_zero _ _).mp h1 with ⟨ha, hx⟩
      refine ⟨ha, ?_⟩
      intro p hp
      rcases List.mem_cons.mp hp with hp | hp
      · subst hp
        exact Nat.xor_eq_zero.mp hx
      · exact h2 p hp
    · rintro ⟨ha, h2⟩
      have hx : ab.1 ^^^ ab.2 = 0 := Nat.xor_eq_zero.mpr (h2 ab (List.mem_cons_self _ _))
      refine ⟨?_, fun p hp => h2 p (List.mem_cons_of_mem _ hp)⟩
      simp [ha, hx]

theorem mem_zip_self {as : List Nat} {p : Nat × Nat} (hp : p ∈ as.zip as) : p.1 = p.2 := by
  induction as with
  | nil => simp at hp
  | cons c cs ih =>
    simp only [List.zip_cons_cons, List.mem_cons] at hp
    rcases hp with hp | hp
    · subst hp; rfl
    · exact ih hp

theorem zip_pointwise_eq (x y : List Nat) (hlen : x.length = y.length) :
    (∀ p ∈ x.zip y, p.1 = p.2) ↔ x = y := by
  induction x generalizing y with
  | nil =>
    cases y with
    | nil => simp
    | cons b bs => simp at hlen
  | cons a as ih =>
    cases y with
    | nil => simp at hlen
    | cons b bs =>
      simp only [List.zip_cons_cons, List.mem_cons, List.cons.injEq]
      constructor
      · intro h
        refine ⟨h (a, b) (Or.inl rfl), (ih bs (by simpa using hlen)).mp ?_⟩
        intro p hp
        exact h p (Or.inr hp)
      · rintro ⟨rfl, rfl⟩
        intro p hp
        rcases hp with hp | hp
        · subst hp; rfl
        · exact mem_zip_self hp

theorem constantTimeCompare_eq_one (x y : List Nat) :
    constantTimeCompare x y = 1 ↔ x = y := by
  unfold constantTimeCompare
  by_cases hlen : x.length = y.length
  · rw [if_neg (by simpa using hlen)]
    by_cases hfold : (x.zip y).foldl (fun v ab => v ||| (ab.1 ^^^ ab.2)) 0 = 0
    · rw [if_pos hfold]
      have hpt := (orFold_eq_zero (x.zip y) 0).mp hfold
      simpa using (zip_pointwise_eq x y hlen).mp hpt.2
    · rw [if_neg hfold]
      constructor
      · intro h
        exact absurd h (by decide)
      · intro heq
        exfalso
        apply hfold
        exact (orFold_eq_zero (x.zip y) 0).mpr ⟨rfl, (zip_pointwise_eq x y hlen).mpr heq⟩
  · rw [if_pos (by simpa using hlen)]
    constructor
    · intro h
      exact absurd h (by decide)
    · intro heq
      exact absurd (by rw [heq]) hlen

/-! ## ASCII strings are determined by their UTF-8 bytes -/

theorem charToNat_inj {c1 c2 : Char} (h : c1.toNat = c2.toNat) : c1 = c2 :=
  Char.eq_of_val_eq (UInt32.ext h)

theorem utf8Bytes_ascii {c : Char} (h : c.toNat < 128) : utf8Bytes c = [c.toNat] := by
  unfold utf8Bytes
  simp [h]

theorem utf8Bytes_head_high {c : Char} (h : ¬ c.toNat < 128) :
    ∃ b t, utf8Bytes c = b :: t ∧ 192 ≤ b := by
  simp only [utf8Bytes, h, if_false]
  by_cases h2 : c.toNat < 2048
  · rw [if_pos h2]
    exact ⟨192 + c.toNat / 64, _, rfl, Nat.le_add_right _ _⟩
  · rw [if_neg h2]
    by_cases h3 : c.toNat < 65536
    · rw [if_pos h3]
      exact ⟨224 + c.toNat / 4096, _, rfl, by omega⟩
    · rw [if_neg h3]
      exact ⟨240 + c.toNat / 262144, _, rfl, by omega⟩

theorem flatMap_utf8_ascii_inj (l1 l2 : List Char)
    (h1 : ∀ c ∈ l1, c.toNat < 128)
    (heq : l1.flatMap utf8Bytes = l2.flatMap utf8Bytes) : l1 = l2 := by
  induction l1 generalizing l2 with
  | nil =>
    cases l2 with
    | nil => rfl
    | cons b bs =>
      exfalso
      rw [List.flatMap_nil, List.flatMap_cons] at heq
      by_cases hb : b.toNat < 128
      · rw [utf8Bytes_ascii hb] at heq
        simp at heq
      · rcases utf8Bytes_head_high hb with ⟨x, t, hx, _⟩
        rw [hx] at heq
        simp at heq
  | cons a as ih =>
    cases l2 with
    | nil =>
      exfalso
      rw [List.flatMap_cons, List.flatMap_nil] at heq
      rw [utf8Bytes_ascii (h1 a (List.mem_cons_self _ _))] at heq
      simp at heq
    | cons b bs =>
      rw [List.flatMap_cons, List.flatMap_cons] at heq
      have ha : a.toNat < 128 := h1 a (List.mem_cons_self _ _)
      rw [utf8Bytes_ascii ha] at heq
      by_cases hb : b.toNat < 128
      · rw [utf8Bytes_ascii hb] at heq
        simp only [List.cons_append, List.nil_append, List.cons.injEq] at heq
        have hab : a = b := charToNat_inj heq.1
        have htail := ih bs (fun c hc => h1 c (List.mem_cons_of_mem _ hc)) heq.2
        rw [hab, htail]
      · exfalso
        rcases utf8Bytes_head_high hb with ⟨x, t, hx, hxge⟩
        rw [hx] at heq
        simp only [List.cons_append, List.nil_append, List.cons.injEq] at heq
        omega

theorem strBytes_inj_of_ascii {s1 s2 : String}
    (h1 : ∀ c ∈ s1.data, c.toNat < 128)
    (heq : strBytes s1 = strBytes s2) : s1 = s2 := by
  apply String.ext
  exact flatMap_utf8_ascii_inj s1.data s2.data h1 heq

theorem lowerHexDigit_ascii (n : Nat) : (lowerHexDigit n).toNat < 128 := by
  unfold lowerHexDigit
  split <;> decide

theorem hexEncode_ascii (bs : List Nat) : ∀ c ∈ (hexEncode bs).data, c.toNat < 128 := by
  intro c hc
  unfold hexEncode at hc
  simp only [List.mem_flatMap] at hc
  rcases hc with ⟨b, _, hb⟩
  simp only [List.mem_cons, List.not_mem_nil, or_false] at hb
  rcases hb with hb | hb
  · rw [hb]; exact lowerHexDigit_ascii _
  · rw [hb]; exact lowerHexDigit_ascii _

/-- compareSignatureV4 answers true exactly on byte-for-byte equal
signatures; for an ASCII left operand this is string equality. -/
theorem compareSignatureV4_iff (sig1 sig2 : String) :
    (compareSignatureV4 sig1 sig2 = true ↔ strBytes sig1 = strBytes sig2)
    ∧ ((∀ c ∈ sig1.data, c.toNat < 128) →
        (compareSignatureV4 sig1 sig2 = true ↔ sig1 = sig2)) := by
  constructor
  · unfold compareSignatureV4
    rw [beq_iff_eq]
    exact constantTimeCompare_eq_one _ _
  · intro hascii
    unfold compareSignatureV4
    rw [beq_iff_eq, constantTimeCompare_eq_one]
    constructor
    · intro h
      exact strBytes_inj_of_ascii hascii h
    · intro h
      rw [h]

/-! ## Path cleaning on traversal-free components -/

/-- Component that names a real child: nonempty and not a dot move. -/
def safeComp (c : String) : Bool := c != "" && c != "." && c != ".."

theorem strMk_append (a b : List Char) :
    String.mk a ++ String.mk b = String.mk (a ++ b) := by
  apply String.ext
  simp [String.data_append]

theorem splitCharAux_ne_nil (sep : Char) (cs acc : List Char) :
    splitCharAux sep cs acc ≠ [] := by
  induction cs generalizing acc with
  | nil => simp [splitCharAux]
  | cons c cs ih =>
    unfold splitCharAux
    by_cases h : c = sep
    · simp [h]
    · simp only [h, if_false]
      exact ih _

theorem joinStr_cons_ne_nil (sep : String) (x : String) (l : List String) (h : l ≠ []) :
    joinStr sep (x :: l) = x ++ sep ++ joinStr sep l := by
  cases l with
  | nil => exact absurd rfl h
  | cons y ys => rfl

theorem joinStr_splitCharAux (sep : Char) (cs acc : List Char) :
    joinStr (String.mk [sep]) (splitCharAux sep cs acc) = String.mk (acc.reverse ++ cs) := by
  induction cs generalizing acc with
  | nil => simp [splitCharAux, joinStr]
  | cons c cs ih =>
    unfold splitCharAux
    by_cases h : c = sep
    · simp only [h, if_true]
      rw [joinStr_cons_ne_nil _ _ _ (splitCharAux_ne_nil sep cs [])]
      rw [ih []]
      apply String.ext
      simp [String.data_append, h]
    · simp only [h, if_false]
      rw [ih (c :: acc)]
      apply String.ext
      simp

theorem splitCharAux_append (sep : Char) (xs ys acc : List Char) :
    splitCharAux sep (xs ++ sep :: ys) acc
      = splitCharAux sep xs acc ++ splitCharAux sep ys [] := by
  induction xs generalizing acc with
  | nil => simp [splitCharAux]
  | cons c cs ih =>
    by_cases h : c = sep
    · simp [splitCharAux, h, ih]
    · simp [splitCharAux, h, ih]

theorem splitChar_append_slash (a b : String) :
    splitChar '/' (a ++ "/" ++ b) = splitChar '/' a ++ splitChar '/' b := by
  unfold splitChar
  have hdata : (a ++ "/" ++ b).data = a.data ++ '/' :: b.data := by
    simp [String.data_append]
  rw [hdata]
  exact splitCharAux_append '/' a.data b.data []

theorem cleanStack_safe (rooted : Bool) (comps : List String)
    (hsafe : ∀ c ∈ comps, safeComp c = true) (st : List String) :
    cleanStack rooted st comps = comps.reverse ++ st := by
  induction comps generalizing st with
  | nil => simp [cleanStack]
  | cons c cs ih =>
    have hc := hsafe c (List.mem_cons_self _ _)
    simp only [safeComp, Bool.and_eq_true, bne_iff_ne, ne_eq] at hc
    unfold cleanStack
    have h1 : ¬ (c = "" ∨ c = ".") := by
      rintro (h | h)
      · exact hc.1.1 h
      · exact hc.1.2 h
    simp only [h1, if_false, hc.2, if_false]
    rw [ih (fun d hd => hsafe d (List.mem_cons_of_mem _ hd)) (c :: st)]
    simp

theorem splitChar_ne_empty_of_safe (p : String)
    (hsafe : ∀ c ∈ splitChar '/' p, safeComp c = true) : p ≠ "" := by
  intro h
  subst h
  have hmem : "" ∈ splitChar '/' "" := by
    show "" ∈ splitCharAux '/' [] []
    unfold splitCharAux
    simp
  have := hsafe "" hmem
  simp [safeComp] at this

theorem head_ne_slash_of_safe (p : String)
    (hsafe : ∀ c ∈ splitChar '/' p, safeComp c = true) : p.data.headD ' ' ≠ '/' := by
  intro h
  cases hd : p.data with
  | nil => rw [hd] at h; simp at h
  | cons c cs =>
    rw [hd] at h
    simp only [List.headD_cons] at h
    subst h
    have hmem : "" ∈ splitChar '/' p := by
      unfold splitChar
      rw [hd]
      unfold splitCharAux
      simp only [if_pos rfl]
      exact List.mem_cons_self _ _
    have := hsafe "" hmem
    simp [safeComp] at this

theorem cleanPath_safe (p : String)
    (hsafe : ∀ c ∈ splitChar '/' p, safeComp c = true) : cleanPath p = p := by
  have hne : p ≠ "" := splitChar_ne_empty_of_safe p hsafe
  have hhead : p.data.headD ' ' ≠ '/' := head_ne_slash_of_safe p hsafe
  have hr : (p.data.headD ' ' == '/') = false := by
    simpa using hhead
  unfold cleanPath
  rw [if_neg hne]
  simp only [hr, Bool.false_eq_true, if_false]
  rw [cleanStack_safe false _ hsafe []]
  simp only [List.append_nil, List.reverse_reverse]
  have hnil : splitChar '/' p ≠ [] := splitCharAux_ne_nil '/' p.data []
  rw [if_neg hnil]
  have hjoin : joinStr "/" (splitChar '/' p) = p := by
    have h1 : ("/" : String) = String.mk ['/'] := rfl
    rw [h1]
    unfold splitChar
    rw [joinStr_splitCharAux '/' p.data []]
    simp
  rw [hjoin]

theorem safe_append_slash (a b : String)
    (ha : ∀ c ∈ splitChar '/' a, safeComp c = true)
    (hb : ∀ c ∈ splitChar '/' b, safeComp c = true) :
    ∀ c ∈ splitChar '/' (a ++ "/" ++ b), safeComp c = true := by
  intro c hc
  rw [splitChar_append_slash] at hc
  rcases List.mem_append.mp hc with hc | hc
  · exact ha c hc
  · exact hb c hc

theorem joinPath_safe (a b : String)
    (ha : ∀ c ∈ splitChar '/' a, safeComp c = true)
    (hb : ∀ c ∈ splitChar '/' b, safeComp c = true) :
    joinPath a b = a ++ "/" ++ b := by
  have hane : a ≠ "" := splitChar_ne_empty_of_safe a ha
  have hbne : b ≠ "" := splitChar_ne_empty_of_safe b hb
  unfold joinPath
  rw [if_neg (by rintro ⟨h, _⟩; exact hane h), if_neg hane, if_neg hbne]
  exact cleanPath_safe _ (safe_append_slash a b ha hb)

/-! ## Behaviour of the multipart completion loop -/

/-- Manifest entry whose temp part file exists and whose asserted ETag
equals the recomputed digest of its content. -/
def partGood (md5Hash : List Nat → List Nat) (fs : Fs) (dst uploadId : String)
    (p : XmlPart) : Prop :=
  (fs.getFile (srcPartFile dst uploadId p.PartNumber)).isSome = true
  ∧ p.ETag = hexEncode (md5Hash ((fs.getFile (srcPartFile dst uploadId p.PartNumber)).getD []))

instance (md5Hash : List Nat → List Nat) (fs : Fs) (dst uploadId : String)
    (p : XmlPart) : Decidable (partGood md5Hash fs dst uploadId p) := by
  unfold partGood
  infer_instance

theorem partGood_elim {md5Hash : List Nat → List Nat} {fs : Fs} {dst uploadId : String}
    {p : XmlPart} (h : partGood md5Hash fs dst uploadId p) :
    ∃ c, fs.getFile (srcPartFile dst uploadId p.PartNumber) = some c
      ∧ p.ETag = hexEncode (md5Hash c) := by
  rcases h with ⟨h1, h2⟩
  rcases Option.isSome_iff_exists.mp h1 with ⟨c, hc⟩
  refine ⟨c, hc, ?_⟩
  rw [hc] at h2
  simpa using h2

theorem partGood_intro {md5Hash : List Nat → List Nat} {fs : Fs} {dst uploadId : String}
    {p : XmlPart} {c : List Nat}
    (hc : fs.getFile (srcPartFile dst uploadId p.PartNumber) = some c)
    (he : p.ETag = hexEncode (md5Hash c)) : partGood md5Hash fs dst uploadId p := by
  constructor
  · rw [hc]; rfl
  · rw [hc]; simpa using he

theorem flatMap_congr_mem {α β : Type} (l : List α) (f g : α → List β)
    (h : ∀ a ∈ l, f a = g a) : l.flatMap f = l.flatMap g := by
  induction l with
  | nil => rfl
  | cons a as ih =>
    rw [List.flatMap_cons, List.flatMap_cons, h a (List.mem_cons_self _ _),
      ih (fun b hb => h b (List.mem_cons_of_mem _ hb))]

theorem finilizeLoop_cons (md5Hash : List Nat → List Nat) (fs : Fs)
    (dst uid : String) (rf : String → Bool) (part : XmlPart) (rest : List XmlPart) :
    finilizeLoop md5Hash fs dst uid rf (part :: rest)
      = match fs.getFile (srcPartFile dst uid part.PartNumber) with
        | none => (.readFailed, fs)
        | some content =>
          if part.ETag ≠ hexEncode (md5Hash content) then (.hashMismatch, fs)
          else
            finilizeLoop md5Hash
              (if rf (srcPartFile dst uid part.PartNumber)
               then fs.setFile dst ((fs.getFile dst).getD [] ++ content)
               else (fs.setFile dst ((fs.getFile dst).getD [] ++ content)).removeFile
                 (srcPartFile dst uid part.PartNumber))
              dst uid rf rest := rfl

theorem finilizeLoop_append (md5Hash : List Nat → List Nat) (dst uid : String)
    (rf : String → Bool) (pre : List XmlPart) :
    ∀ (fs : Fs) (rest : List XmlPart) (d0 : List Nat),
    fs.getFile dst = some d0 →
    (∀ p ∈ pre, partGood md5Hash fs dst uid p) →
    (pre.map (fun p => srcPartFile dst uid p.PartNumber)).Nodup →
    (∀ p ∈ pre, srcPartFile dst uid p.PartNumber ≠ dst) →
    ∃ fsPre,
      finilizeLoop md5Hash fs dst uid rf (pre ++ rest)
        = finilizeLoop md5Hash fsPre dst uid rf rest
      ∧ fsPre.getFile dst
          = some (d0 ++ pre.flatMap
              (fun p => (fs.getFile (srcPartFile dst uid p.PartNumber)).getD []))
      ∧ (∀ q, q ≠ dst → (∀ p ∈ pre, q ≠ srcPartFile dst uid p.PartNumber) →
          fsPre.getFile q = fs.getFile q)
      ∧ (∀ p ∈ pre, rf (srcPartFile dst uid p.PartNumber) = false →
          fsPre.getFile (srcPartFile dst uid p.PartNumber) = none)
      ∧ (∀ q, fsPre.isDir q = fs.isDir q) := by
  induction pre with
  | nil =>
    intro fs rest d0 hdst _ _ _
    exact ⟨fs, rfl, by simpa using hdst, fun q _ _ => rfl, by simp, fun q => rfl⟩
  | cons p pre ih =>
    intro fs rest d0 hdst hgood hnodup hnedst
    rcases partGood_elim (hgood p (List.mem_cons_self _ _)) with ⟨c, hc, hetag⟩
    have hsrcdst : srcPartFile dst uid p.PartNumber ≠ dst :=
      hnedst p (List.mem_cons_self _ _)
    have hnodup1 : srcPartFile dst uid p.PartNumber
        ∉ pre.map (fun q => srcPartFile dst uid q.PartNumber) :=
      (List.nodup_cons.mp (by simpa using hnodup)).1
    have hnodup2 : (pre.map (fun q => srcPartFile dst uid q.PartNumber)).Nodup :=
      (List.nodup_cons.mp (by simpa using hnodup)).2
    have hstep : finilizeLoop md5Hash fs dst uid rf ((p :: pre) ++ rest)
        = finilizeLoop md5Hash
            (if rf (srcPartFile dst uid p.PartNumber)
             then fs.setFile dst (d0 ++ c)
             else (fs.setFile dst (d0 ++ c)).removeFile (srcPartFile dst uid p.PartNumber))
            dst uid rf (pre ++ rest) := by
      show finilizeLoop md5Hash fs dst uid rf (p :: (pre ++ rest)) = _
      rw [finilizeLoop_cons, hc]
      simp only [hetag, ne_eq, not_true_eq_false, if_false, ite_false, hdst, Option.getD_some]
    have hfs2dst :
        (if rf (srcPartFile dst uid p.PartNumber)
         then fs.setFile dst (d0 ++ c)
         else (fs.setFile dst (d0 ++ c)).removeFile
           (srcPartFile dst uid p.PartNumber)).getFile dst = some (d0 ++ c) := by
      by_cases hrf : rf (srcPartFile dst uid p.PartNumber)
      · rw [if_pos hrf]
        exact getFile_setFile_self fs dst (d0 ++ c)
      · rw [if_neg hrf]
        rw [getFile_removeFile_ne _ _ _ (Ne.symm hsrcdst)]
        exact getFile_setFile_self fs dst (d0 ++ c)
    have hfs2other : ∀ q, q ≠ dst → q ≠ srcPartFile dst uid p.PartNumber →
        (if rf (srcPartFile dst uid p.PartNumber)
         then fs.setFile dst (d0 ++ c)
         else (fs.setFile dst (d0 ++ c)).removeFile
           (srcPartFile dst uid p.PartNumber)).getFile q = fs.getFile q := by
      intro q hq1 hq2
      by_cases hrf : rf (srcPartFile dst uid p.PartNumber)
      · rw [if_pos hrf]
        exact getFile_setFile_ne fs dst q (d0 ++ c) hq1
      · rw [if_neg hrf]
        rw [getFile_removeFile_ne _ _ _ hq2]
        exact getFile_setFile_ne fs dst q (d0 ++ c) hq1
    have hfs2src : rf (srcPartFile dst uid p.PartNumber) = false →
        (if rf (srcPartFile dst uid p.PartNumber)
         then fs.setFile dst (d0 ++ c)
         else (fs.setFile dst (d0 ++ c)).removeFile
           (srcPartFile dst uid p.PartNumber)).getFile
          (srcPartFile dst uid p.PartNumber) = none := by
      intro hrf
      rw [if_neg (by simp [hrf])]
      exact getFile_removeFile_self _ _
    have hfs2dirs : ∀ q,
        (if rf (srcPartFile dst uid p.PartNumber)
         then fs.setFile dst (d0 ++ c)
         else (fs.setFile dst (d0 ++ c)).removeFile
           (srcPartFile dst uid p.PartNumber)).isDir q = fs.isDir q := by
      intro q
      by_cases hrf : rf (srcPartFile dst uid p.PartNumber)
      · rw [if_pos hrf]; rfl
      · rw [if_neg hrf]; rfl
    have hgood2 : ∀ q ∈ pre, partGood md5Hash
        (if rf (srcPartFile dst uid p.PartNumber)
         then fs.setFile dst (d0 ++ c)
         else (fs.setFile dst (d0 ++ c)).removeFile
           (srcPartFile dst uid p.PartNumber)) dst uid q := by
      intro q hq
      rcases partGood_elim (hgood q (List.mem_cons_of_mem _ hq)) with ⟨cq, hcq, hetagq⟩
      refine partGood_intro ?_ hetagq
      rw [hfs2other _ (hnedst q (List.mem_cons_of_mem _ hq)) ?_]
      · exact hcq
      · intro heq
        exact hnodup1 (heq ▸ List.mem_map_of_mem _ hq)
    have hnedst2 : ∀ q ∈ pre, srcPartFile dst uid q.PartNumber ≠ dst :=
      fun q hq => hnedst q (List.mem_cons_of_mem _ hq)
    rcases ih _ rest (d0 ++ c) hfs2dst hgood2 hnodup2 hnedst2 with
      ⟨fsPre, hloop, hdstPre, hotherPre, hdelPre, hdirsPre⟩
    refine ⟨fsPre, ?_, ?_, ?_, ?_, ?_⟩
    · rw [hstep, hloop]
    · rw [hdstPre]
      have hmapeq : pre.flatMap (fun q =>
            ((if rf (srcPartFile dst uid p.PartNumber)
              then fs.setFile dst (d0 ++ c)
              else (fs.setFile dst (d0 ++ c)).removeFile
                (srcPartFile dst uid p.PartNumber)).getFile
              (srcPartFile dst uid q.PartNumber)).getD [])
          = pre.flatMap (fun q =>
              (fs.getFile (srcPartFile dst uid q.PartNumber)).getD []) := by
        apply flatMap_congr_mem
        intro q hq
        rw [hfs2other _ (hnedst q (List.mem_cons_of_mem _ hq)) ?_]
        intro heq
        exact hnodup1 (heq ▸ List.mem_map_of_mem _ hq)
      rw [hmapeq, List.flatMap_cons, hc]
      simp [List.append_assoc]
    · intro q hq1 hq2
      rw [hotherPre q hq1 (fun p2 hp2 => hq2 p2 (List.mem_cons_of_mem _ hp2))]
      exact hfs2other q hq1 (hq2 p (List.mem_cons_self _ _))
    · intro q hq hrfq
      rcases List.mem_cons.mp hq with hq | hq
      · subst hq
        rw [hotherPre _ hsrcdst ?_]
        · exact hfs2src hrfq
        · intro p2 hp2 heq
          exact hnodup1 (heq ▸ List.mem_map_of_mem _ hp2)
      · exact hdelPre q hq hrfq
    · intro q
      rw [hdirsPre q, hfs2dirs q]

/-! ## Claim theorems -/

theorem flatMap_encodePathChar_id (l : List Char)
    (h : ∀ c ∈ l, isUnreservedPathChar c = true) : l.flatMap encodePathChar = l := by
  induction l with
  | nil => rfl
  | cons c cs ih =>
    rw [List.flatMap_cons, ih (fun d hd => h d (List.mem_cons_of_mem _ hd))]
    unfold encodePathChar
    rw [if_pos (h c (List.mem_cons_self _ _))]
    rfl

/-- C6.  encodePath is the identity on nonempty strings over the
unreserved alphabet; on every string its output is the per-code-point
expansion that keeps unreserved characters and renders every UTF-8 byte of
any other code point as an uppercase two-digit percent escape; and a
string containing the e-acute code point encodes its two UTF-8 bytes as
%C3%A9. -/
theorem encodePath_spec :
    (∀ s : String, s ≠ "" → s.data.all isUnreservedPathChar = true → encodePath s = s)
    ∧ (∀ s : String, (encodePath s).data = s.data.flatMap (fun c =>
        if isUnreservedPathChar c then [c]
        else (utf8Bytes c).flatMap (fun b => ['%', upperHexDigit (b / 16), upperHexDigit (b % 16)])))
    ∧ encodePath "aé" = "a%C3%A9" := by
  have hlam : (fun c => if isUnreservedPathChar c then [c]
      else (utf8Bytes c).flatMap (fun b => ['%', upperHexDigit (b / 16), upperHexDigit (b % 16)]))
      = encodePathChar := by
    funext c
    rfl
  refine ⟨?_, ?_, by decide⟩
  · intro s hne hall
    unfold encodePath
    rw [if_pos]
    simp only [reservedObjectNamesMatch, decide_eq_true_eq]
    exact ⟨hne, by simpa using hall⟩
  · intro s
    rw [hlam]
    unfold encodePath
    by_cases hm : reservedObjectNamesMatch s = true
    · rw [if_pos hm]
      simp only [reservedObjectNamesMatch, decide_eq_true_eq] at hm
      rw [flatMap_encodePathChar_id s.data (by simpa using hm.2)]
    · rw [if_neg hm]

/-- C6 witness: a concrete unreserved string is returned unchanged. -/
theorem encodePath_spec_witness :
    ("bkt/obj.txt" : String) ≠ "" ∧ encodePath "bkt/obj.txt" = "bkt/obj.txt" :=
  ⟨by decide, encodePath_spec.1 "bkt/obj.txt" (by decide) (by decide)⟩

/-- C5 amended.  The getContentSha256Cksum resolution follows the claimed
policy exactly: query first for presigned requests falling back to the
header and then the unsigned-payload sentinel, header only otherwise with
the empty-body hash as default.  However, the value that authenticate
actually feeds into the canonical request is payloadHashUsed, which
deviates from the policy in one reachable case: a credential scope whose
declared service is not s3 combined with the empty-body default and a
nonempty request body makes authenticate hash the body instead. -/
theorem payload_hash_resolution_policy :
    (∀ r : HttpRequest,
      getContentSha256Cksum r =
        if isRequestPresignedSignatureV4 r then
          ((queryFirst? r "X-Amz-Content-Sha256").or
            (headerFirst? r "X-Amz-Content-Sha256")).getD unsignedPayload
        else (headerFirst? r "X-Amz-Content-Sha256").getD emptySHA256)
    ∧ (∀ (sha256Hash : List Nat → List Nat) (r : HttpRequest) (credService : String),
        payloadHashUsed sha256Hash r credService =
          if credService ≠ "s3" ∧ getContentSha256Cksum r = emptySHA256 ∧ r.body ≠ [] then
            hexEncode (sha256Hash r.body)
          else getContentSha256Cksum r) := by
  constructor
  · intro r
    unfold getContentSha256Cksum
    by_cases hp : isRequestPresignedSignatureV4 r
    · simp only [hp, if_true]
      cases queryFirst? r "X-Amz-Content-Sha256" with
      | some v => simp
      | none =>
        cases headerFirst? r "X-Amz-Content-Sha256" with
        | some v => simp
        | none => simp
    · simp only [hp, Bool.false_eq_true, if_false]
      cases headerFirst? r "X-Amz-Content-Sha256" with
      | some v => simp
      | none => simp
  · intro sha256Hash r credService
    rfl

def cexSha5 : List Nat → List Nat := fun _ => List.replicate 32 0

def cexReq5 : HttpRequest :=
  { method := "PUT", path := "/bkt/obj", rawQuery := "", queryParams := []
    headers := [], host := "h", contentLength := 1, transferEncoding := []
    body := [49] }

/-- C5 counterexample.  For a request that is not presigned, carries no
content-hash header and has a nonempty body, the claimed policy resolves
the payload hash to the hex SHA-256 of the empty string; yet when the
client-supplied credential declares a service other than s3, the value
authenticate uses in the canonical request is the hash of the body and
differs from the policy value. -/
theorem payload_hash_policy_counterexample :
    isRequestPresignedSignatureV4 cexReq5 = false
    ∧ headerFirst? cexReq5 "X-Amz-Content-Sha256" = none
    ∧ getContentSha256Cksum cexReq5 = emptySHA256
    ∧ payloadHashUsed cexSha5 cexReq5 "iam" ≠ emptySHA256 := by
  refine ⟨rfl, rfl, rfl, ?_⟩
  decide

/-- C10.  extractBucketAndKey dereferences the second piece of every
ampersand-separated query token split on the equals sign; a token without
an equals sign, such as the bare uploads query on a bucket-level request,
makes the index out of range (modelled as none, a Go panic).  Tokens with
an equals sign and requests carrying an object key are handled. -/
theorem extractBucketAndKey_bare_token_panics :
    extractBucketAndKey "/bkt" "uploads" = none
    ∧ extractBucketAndKey "/bkt" "prefix=a&delimiter=b"
        = some ("bkt", "a", [("prefix", "a"), ("delimiter", "b")])
    ∧ extractBucketAndKey "/bkt/obj" "uploads" = some ("bkt", "obj", []) := by
  refine ⟨rfl, ?_, rfl⟩
  decide

/-- C4 counterexample.  The router accepts the bucket name b and the key
with two parent-directory components from the URL path; the handlers then
resolve the object path with filepath.Join, whose lexical cleaning follows
the traversal components out of the bucket directory: the operated-on path
is x at the bucket root level, under neither the bucket directory nor even
the configured root. -/
theorem key_traversal_escapes_bucket :
    extractBucketAndKey "/b/../../x" "" = some ("b", "../../x", [])
    ∧ resolvedObjectPath "buckets" "b" "../../x" = "x"
    ∧ isUnder (joinPath "buckets" "b") (resolvedObjectPath "buckets" "b" "../../x") = false
    ∧ isUnder "buckets" (resolvedObjectPath "buckets" "b" "../../x") = false := by
  refine ⟨rfl, ?_, ?_, ?_⟩ <;> decide

/-- C4 amended.  Confinement holds only for traversal-free names: when the
slash-separated components of the configured root, the bucket name and the
key are all nonempty and none is a dot or dot-dot component, the resolved
filesystem path is exactly the key below the bucket directory and stays
under it.  Keys containing dot-dot traversal components can escape the
bucket directory; the code does not enforce confinement for them. -/
theorem resolved_path_confined_for_safe_keys (root bucketName objectKey : String)
    (hroot : ∀ c ∈ splitChar '/' root, safeComp c = true)
    (hbucket : ∀ c ∈ splitChar '/' bucketName, safeComp c = true)
    (hkey : ∀ c ∈ splitChar '/' objectKey, safeComp c = true) :
    resolvedObjectPath root bucketName objectKey = root ++ "/" ++ bucketName ++ "/" ++ objectKey
    ∧ isUnder (joinPath root bucketName) (resolvedObjectPath root bucketName objectKey) = true := by
  have h1 : joinPath root bucketName = root ++ "/" ++ bucketName :=
    joinPath_safe root bucketName hroot hbucket
  have hsafe1 : ∀ c ∈ splitChar '/' (root ++ "/" ++ bucketName), safeComp c = true :=
    safe_append_slash root bucketName hroot hbucket
  have h2 : joinPath (root ++ "/" ++ bucketName) objectKey
      = root ++ "/" ++ bucketName ++ "/" ++ objectKey :=
    joinPath_safe _ _ hsafe1 hkey
  have hres : resolvedObjectPath root bucketName objectKey
      = root ++ "/" ++ bucketName ++ "/" ++ objectKey := by
    unfold resolvedObjectPath
    rw [h1, h2]
  refine ⟨hres, ?_⟩
  rw [hres, h1]
  unfold isUnder
  have hpref : ((root ++ "/" ++ bucketName ++ "/").data).isPrefixOf
      ((root ++ "/" ++ bucketName ++ "/" ++ objectKey).data) = true := by
    have hd : (root ++ "/" ++ bucketName ++ "/" ++ objectKey).data
        = (root ++ "/" ++ bucketName ++ "/").data ++ objectKey.data := by
      simp [String.data_append]
    rw [hd]
    rw [List.isPrefixOf_iff_prefix]
    exact List.prefix_append _ _
  rw [hpref]
  simp

/-- C4 amended witness at a concrete root, bucket and nested key. -/
theorem resolved_path_confined_witness :
    resolvedObjectPath "buckets" "bkt" "a/b.txt" = "buckets/bkt/a/b.txt"
    ∧ isUnder (joinPath "buckets" "bkt") (resolvedObjectPath "buckets" "bkt" "a/b.txt") = true :=
  resolved_path_confined_for_safe_keys "buckets" "bkt" "a/b.txt"
    (by decide) (by decide) (by decide)

/-- Go strings.HasSuffix, the directory-marker test of handlePutRequest. -/
def goHasSuffix (s suffixStr : String) : Bool := suffixStr.data.isSuffixOf s.data

def md5C8 : List Nat → List Nat := fun _ => []

def fsC8 : Fs := { files := [], dirs := ["buckets", "buckets/bkt", "buckets/bkt/d"] }

/-- C8 counterexample.  A directory-marker PUT for a key whose resolved
path is already occupied by a directory, not by a regular file, still
answers the conflict status: the source only checks os.Stat existence, so
the conflict is not limited to paths occupied by a regular file. -/
theorem putObject_dir_conflict_on_directory :
    goHasSuffix "d/" "/" = true
    ∧ joinPath "buckets/bkt" "d/" = "buckets/bkt/d"
    ∧ fsC8.getFile "buckets/bkt/d" = none
    ∧ fsC8.isDir "buckets/bkt/d" = true
    ∧ (putObject md5C8 fsC8 "buckets/bkt/d" true false "" "" []).1 = PutOutcome.conflictDir := by
  refine ⟨rfl, by decide, rfl, rfl, rfl⟩

/-- C8 amended.  A directory-marker putObject creates the directory when
nothing occupies the path and the parent directory exists, and it answers
the conflict status exactly when the path is already occupied, whether by
a regular file or by a directory. -/
theorem putObject_dir_marker_occupied_iff_conflict
    (md5Hash : List Nat → List Nat) (fs : Fs) (path : String) (isMulti : Bool)
    (uploadId partNumber : String) (body : List Nat) :
    (((fs.getFile path).isSome || fs.isDir path) = true →
      putObject md5Hash fs path true isMulti uploadId partNumber body = (.conflictDir, fs))
    ∧ (((fs.getFile path).isSome || fs.isDir path) = false → fs.isDir (goDir path) = true →
      putObject md5Hash fs path true isMulti uploadId partNumber body
        = (.createdDir, fs.addDir path))
    ∧ ((putObject md5Hash fs path true isMulti uploadId partNumber body).1 = .conflictDir
        ↔ ((fs.getFile path).isSome || fs.isDir path) = true) := by
  have hput : putObject md5Hash fs path true isMulti uploadId partNumber body
      = if (fs.getFile path).isNone ∧ ¬ fs.isDir path then
          (if fs.isDir (goDir path) then (.createdDir, fs.addDir path)
           else (.internalError, fs))
        else (.conflictDir, fs) := rfl
  have hcond : ((fs.getFile path).isSome || fs.isDir path) = true
      ↔ ¬ ((fs.getFile path).isNone = true ∧ ¬ fs.isDir path = true) := by
    rcases hf : fs.getFile path with _ | v <;> rcases hd : fs.isDir path <;> simp
  have hconf : ((fs.getFile path).isSome || fs.isDir path) = true →
      putObject md5Hash fs path true isMulti uploadId partNumber body = (.conflictDir, fs) := by
    intro hocc
    rw [hput, if_neg (hcond.mp hocc)]
  have hcreate : ((fs.getFile path).isSome || fs.isDir path) = false →
      fs.isDir (goDir path) = true →
      putObject md5Hash fs path true isMulti uploadId partNumber body
        = (.createdDir, fs.addDir path) := by
    intro hocc hparent
    have hocc2 : ¬ (((fs.getFile path).isSome || fs.isDir path) = true) := by
      rw [hocc]
      decide
    rw [hput, if_pos (by
      by_contra hcnd
      exact hocc2 (hcond.mpr hcnd)), if_pos hparent]
  refine ⟨hconf, hcreate, ?_, ?_⟩
  · intro hres
    by_contra hocc
    have hoccf : ((fs.getFile path).isSome || fs.isDir path) = false :=
      Bool.eq_false_iff.mpr hocc
    have hocc2 : ¬ (((fs.getFile path).isSome || fs.isDir path) = true) := by
      rw [hoccf]
      decide
    rw [hput, if_pos (by
      by_contra hcnd
      exact hocc2 (hcond.mpr hcnd))] at hres
    by_cases hp : fs.isDir (goDir path)
    · rw [if_pos hp] at hres
      simp at hres
    · rw [if_neg hp] at hres
      simp at hres
  · intro hocc
    rw [hconf hocc]

/-- C8 amended witness: creation into an existing parent directory. -/
theorem putObject_dir_marker_witness :
    putObject md5C8 { files := [], dirs := ["buckets", "buckets/bkt"] }
      "buckets/bkt/d" true false "" "" []
      = (.createdDir, Fs.addDir { files := [], dirs := ["buckets", "buckets/bkt"] } "buckets/bkt/d") :=
  (putObject_dir_marker_occupied_iff_conflict md5C8 _ "buckets/bkt/d" false "" "" []).2.1
    (by decide) (by decide)

theorem lowerHexDigit_is_lower (n : Nat) :
    (lowerHexDigit n).isDigit = true ∨ ('a' ≤ lowerHexDigit n ∧ lowerHexDigit n ≤ 'f') := by
  unfold lowerHexDigit
  split <;> first | exact Or.inl (by decide) | exact Or.inr (by decide)

/-- C7.  A putObject of body b on an unoccupied non-directory path answers
the created status with the lowercase hex digest of b as ETag and stores
exactly b; getObject on any filesystem state then recomputes the digest
from the stored content on every read, answering the stored bytes with
their digest.  The digest rendering uses only lowercase hex characters. -/
theorem putObject_getObject_etag_roundtrip (md5Hash : List Nat → List Nat)
    (fs : Fs) (path : String) (body : List Nat)
    (h1 : ((pathPrefixes (goDir path)).any fun q => (fs.getFile q).isSome) = false)
    (h2 : fs.isDir path = false)
    (h3 : path ∉ pathPrefixes (goDir path)) :
    (∃ fs1, putObject md5Hash fs path false false "" "" body
        = (PutOutcome.created (hexEncode (md5Hash body)), fs1)
      ∧ fs1.getFile path = some body
      ∧ getObject md5Hash fs1 path = .ok (hexEncode (md5Hash body)) body)
    ∧ (∀ (fs2 : Fs) (p2 : String) (b2 : List Nat), fs2.getFile p2 = some b2 →
        getObject md5Hash fs2 p2 = .ok (hexEncode (md5Hash b2)) b2)
    ∧ (∀ bs : List Nat, ∀ c ∈ (hexEncode bs).data,
        c.isDigit = true ∨ ('a' ≤ c ∧ c ≤ 'f')) := by
  have hget : ∀ (fs2 : Fs) (p2 : String) (b2 : List Nat), fs2.getFile p2 = some b2 →
      getObject md5Hash fs2 p2 = .ok (hexEncode (md5Hash b2)) b2 := by
    intro fs2 p2 b2 hb2
    unfold getObject
    rw [if_neg, hb2]
    rw [hb2]
    rintro ⟨hnone, _⟩
    simp at hnone
  refine ⟨?_, hget, ?_⟩
  · have hmk : mkdirAll fs (goDir path)
        = some { fs with dirs := fs.dirs ++ pathPrefixes (goDir path) } := by
      unfold mkdirAll
      rw [if_neg]
      simp only [List.any_eq_true, not_exists, not_and]
      intro q hq
      have := List.any_eq_false.mp h1 q hq
      simp [this]
    have hput : putObject md5Hash fs path false false "" "" body
        = (PutOutcome.created (hexEncode (md5Hash body)),
            Fs.setFile { fs with dirs := fs.dirs ++ pathPrefixes (goDir path) } path body) := by
      show (match mkdirAll fs (goDir path) with
        | none => (PutOutcome.internalError, fs)
        | some fs1 =>
          if fs1.isDir path then (PutOutcome.internalError, fs)
          else (PutOutcome.created (hexEncode (md5Hash body)), fs1.setFile path body)) = _
      rw [hmk]
      dsimp only
      rw [if_neg]
      intro hdir
      have hmem : path ∈ fs.dirs ++ pathPrefixes (goDir path) :=
        List.mem_of_elem_eq_true hdir
      rcases List.mem_append.mp hmem with h | h
      · rw [show fs.isDir path = true from List.elem_eq_true_of_mem h] at h2
        exact absurd h2 (by decide)
      · exact h3 h
    refine ⟨_, hput, getFile_setFile_self _ _ _, hget _ _ _ (getFile_setFile_self _ _ _)⟩
  · intro bs c hc
    unfold hexEncode at hc
    simp only [List.mem_flatMap] at hc
    rcases hc with ⟨b, _, hb⟩
    simp only [List.mem_cons, List.not_mem_nil, or_false] at hb
    rcases hb with hb | hb <;> rw [hb] <;> exact lowerHexDigit_is_lower _

def md5W : List Nat → List Nat := fun bs => bs ++ [7]

def fsW1 : Fs :=
  { files := [("buckets/bkt/obj.txt", [104, 101, 108, 108, 111])]
    dirs := ["buckets", "buckets/bkt"] }

/-- C7 witness: reading back the state a put produced yields the stored
bytes and the recomputed digest. -/
theorem putObject_getObject_witness :
    getObject md5W fsW1 "buckets/bkt/obj.txt"
      = .ok (hexEncode (md5W [104, 101, 108, 108, 111])) [104, 101, 108, 108, 111] :=
  (putObject_getObject_etag_roundtrip md5W { files := [], dirs := ["buckets", "buckets/bkt"] }
      "buckets/bkt/obj.txt" [104, 101, 108, 108, 111]
      (by decide) (by decide) (by decide)).2.1
    fsW1 "buckets/bkt/obj.txt" _ (by decide)

/-- C2.  When every manifest entry has its temp part file present with a
matching ETag, multipart completion succeeds and the destination holds
exactly the concatenation of the part contents taken in the order the
manifest lists them, whatever that order is; the removeFails parameter
shows the result does not depend on whether part-file deletes succeed. -/
theorem completeMultipart_concat_manifest_order (md5Hash : List Nat → List Nat)
    (fs : Fs) (bucketPath objectKey uploadId : String) (manifest : List XmlPart)
    (removeFails : String → Bool)
    (hnotdir : fs.isDir (joinPath bucketPath objectKey) = false)
    (hopen : (fs.getFile (joinPath bucketPath objectKey)).isSome = true
      ∨ fs.isDir (goDir (joinPath bucketPath objectKey)) = true)
    (hgood : ∀ p ∈ manifest, partGood md5Hash fs (joinPath bucketPath objectKey) uploadId p)
    (hnodup : (manifest.map (fun p =>
        srcPartFile (joinPath bucketPath objectKey) uploadId p.PartNumber)).Nodup)
    (hnedst : ∀ p ∈ manifest,
        srcPartFile (joinPath bucketPath objectKey) uploadId p.PartNumber
          ≠ joinPath bucketPath objectKey) :
    ∃ fsFin,
      finilizeMultipartUpload md5Hash fs bucketPath objectKey uploadId manifest removeFails
        = (FinOutcome.success, fsFin)
      ∧ fsFin.getFile (joinPath bucketPath objectKey)
          = some (manifest.flatMap (fun p =>
              (fs.getFile (srcPartFile (joinPath bucketPath objectKey) uploadId
                p.PartNumber)).getD [])) := by
  have hcond : ¬ (fs.isDir (joinPath bucketPath objectKey) = true
      ∨ ((fs.getFile (joinPath bucketPath objectKey)).isNone = true
        ∧ ¬ fs.isDir (goDir (joinPath bucketPath objectKey)) = true)) := by
    rintro (h | ⟨h1, h2⟩)
    · rw [h] at hnotdir
      exact absurd hnotdir (by decide)
    · rcases hopen with h3 | h3
      · rw [Option.isNone_iff_eq_none.mp h1] at h3
        exact absurd h3 (by decide)
      · exact h2 h3
  have hfin : finilizeMultipartUpload md5Hash fs bucketPath objectKey uploadId manifest removeFails
      = finilizeLoop md5Hash (fs.setFile (joinPath bucketPath objectKey) [])
          (joinPath bucketPath objectKey) uploadId removeFails manifest := by
    show (if _ then _ else _) = _
    rw [if_neg hcond]
  have hgood0 : ∀ p ∈ manifest, partGood md5Hash
      (fs.setFile (joinPath bucketPath objectKey) [])
      (joinPath bucketPath objectKey) uploadId p := by
    intro p hp
    rcases partGood_elim (hgood p hp) with ⟨c, hc, he⟩
    refine partGood_intro ?_ he
    rw [getFile_setFile_ne _ _ _ _ (hnedst p hp)]
    exact hc
  rcases finilizeLoop_append md5Hash (joinPath bucketPath objectKey) uploadId removeFails
      manifest (fs.setFile (joinPath bucketPath objectKey) []) [] []
      (getFile_setFile_self _ _ _) hgood0 hnodup hnedst with
    ⟨fsFin, hloop, hdst, _, _, _⟩
  refine ⟨fsFin, ?_, ?_⟩
  · rw [List.append_nil] at hloop
    rw [hfin, hloop]
    rfl
  · rw [hdst]
    have : manifest.flatMap (fun p =>
        ((fs.setFile (joinPath bucketPath objectKey) []).getFile
          (srcPartFile (joinPath bucketPath objectKey) uploadId p.PartNumber)).getD [])
      = manifest.flatMap (fun p =>
        (fs.getFile (srcPartFile (joinPath bucketPath objectKey) uploadId
          p.PartNumber)).getD []) := by
      apply flatMap_congr_mem
      intro p hp
      rw [getFile_setFile_ne _ _ _ _ (hnedst p hp)]
    rw [this]
    simp

def md5W2 : List Nat → List Nat := fun bs => bs

def fsM : Fs :=
  { files := [("buckets/bkt/1_1_obj", [1, 2]), ("buckets/bkt/1_2_obj", [3, 4]),
              ("buckets/bkt/obj", [9, 9, 9])]
    dirs := ["buckets", "buckets/bkt"] }

/-- C2 witness: completing with the manifest listing part 2 before part 1
yields part2 followed by part1, replacing the prior object content. -/
theorem completeMultipart_concat_witness :
    (finilizeMultipartUpload md5W2 fsM "buckets/bkt" "obj" "1"
        [⟨2, hexEncode (md5W2 [3, 4])⟩, ⟨1, hexEncode (md5W2 [1, 2])⟩]
        (fun _ => false)).1 = FinOutcome.success
    ∧ (finilizeMultipartUpload md5W2 fsM "buckets/bkt" "obj" "1"
        [⟨2, hexEncode (md5W2 [3, 4])⟩, ⟨1, hexEncode (md5W2 [1, 2])⟩]
        (fun _ => false)).2.getFile (joinPath "buckets/bkt" "obj") = some [3, 4, 1, 2] := by
  obtain ⟨fsFin, h1, h2⟩ := completeMultipart_concat_manifest_order md5W2 fsM
    "buckets/bkt" "obj" "1"
    [⟨2, hexEncode (md5W2 [3, 4])⟩, ⟨1, hexEncode (md5W2 [1, 2])⟩]
    (fun _ => false)
    (by decide) (by decide) (by decide) (by decide) (by decide)
  constructor
  · rw [h1]
  · rw [h1]
    show fsFin.getFile (joinPath "buckets/bkt" "obj") = some [3, 4, 1, 2]
    rw [h2]
    decide

/-- C3.  Multipart completion locates each temp part by the naming
convention, recomputes its digest in manifest order, aborts on the first
entry whose asserted ETag differs, with the signature-mismatch outcome,
leaving that part file and all later part files untouched; for an
all-good manifest it succeeds for every possible delete behaviour,
appends every part and removes each part file whose delete succeeds. -/
theorem completeMultipart_per_entry_validation (md5Hash : List Nat → List Nat)
    (fs : Fs) (bucketPath objectKey uploadId : String) (removeFails : String → Bool)
    (dst : String) (hdsteq : dst = joinPath bucketPath objectKey)
    (hnotdir : fs.isDir dst = false)
    (hopen : (fs.getFile dst).isSome = true ∨ fs.isDir (goDir dst) = true) :
    (∀ n : Int, srcPartFile dst uploadId n
        = goDir dst ++ "/" ++ uploadId ++ "_" ++ toString n ++ "_" ++ goBase dst)
    ∧ (∀ (pre : List XmlPart) (p : XmlPart) (post : List XmlPart) (c : List Nat),
        (∀ q ∈ pre, partGood md5Hash fs dst uploadId q) →
        ((pre ++ [p]).map (fun q => srcPartFile dst uploadId q.PartNumber)).Nodup →
        (∀ q ∈ pre ++ p :: post, srcPartFile dst uploadId q.PartNumber ≠ dst) →
        (∀ q ∈ post, srcPartFile dst uploadId q.PartNumber
            ∉ pre.map (fun q2 => srcPartFile dst uploadId q2.PartNumber)) →
        fs.getFile (srcPartFile dst uploadId p.PartNumber) = some c →
        p.ETag ≠ hexEncode (md5Hash c) →
        ∃ fsk,
          finilizeMultipartUpload md5Hash fs bucketPath objectKey uploadId
            (pre ++ p :: post) removeFails = (FinOutcome.hashMismatch, fsk)
          ∧ fsk.getFile dst = some (pre.flatMap (fun q =>
              (fs.getFile (srcPartFile dst uploadId q.PartNumber)).getD []))
          ∧ fsk.getFile (srcPartFile dst uploadId p.PartNumber) = some c
          ∧ (∀ q ∈ post, fsk.getFile (srcPartFile dst uploadId q.PartNumber)
              = fs.getFile (srcPartFile dst uploadId q.PartNumber)))
    ∧ (∀ manifest : List XmlPart,
        (∀ q ∈ manifest, partGood md5Hash fs dst uploadId q) →
        (manifest.map (fun q => srcPartFile dst uploadId q.PartNumber)).Nodup →
        (∀ q ∈ manifest, srcPartFile dst uploadId q.PartNumber ≠ dst) →
        (finilizeMultipartUpload md5Hash fs bucketPath objectKey uploadId
            manifest removeFails).1 = FinOutcome.success
        ∧ (∀ q ∈ manifest, removeFails (srcPartFile dst uploadId q.PartNumber) = false →
            (finilizeMultipartUpload md5Hash fs bucketPath objectKey uploadId
              manifest removeFails).2.getFile (srcPartFile dst uploadId q.PartNumber)
            = none)) := by
  subst hdsteq
  have hcond : ¬ (fs.isDir (joinPath bucketPath objectKey) = true
      ∨ ((fs.getFile (joinPath bucketPath objectKey)).isNone = true
        ∧ ¬ fs.isDir (goDir (joinPath bucketPath objectKey)) = true)) := by
    rintro (h | ⟨h1, h2⟩)
    · rw [h] at hnotdir
      exact absurd hnotdir (by decide)
    · rcases hopen with h3 | h3
      · rw [Option.isNone_iff_eq_none.mp h1] at h3
        exact absurd h3 (by decide)
      · exact h2 h3
  have hfin : ∀ m : List XmlPart,
      finilizeMultipartUpload md5Hash fs bucketPath objectKey uploadId m removeFails
        = finilizeLoop md5Hash (fs.setFile (joinPath bucketPath objectKey) [])
            (joinPath bucketPath objectKey) uploadId removeFails m := by
    intro m
    show (if _ then _ else _) = _
    rw [if_neg hcond]
  have hlift : ∀ q : XmlPart, srcPartFile (joinPath bucketPath objectKey) uploadId q.PartNumber
      ≠ joinPath bucketPath objectKey →
      (fs.setFile (joinPath bucketPath objectKey) []).getFile
        (srcPartFile (joinPath bucketPath objectKey) uploadId q.PartNumber)
      = fs.getFile (srcPartFile (joinPath bucketPath objectKey) uploadId q.PartNumber) := by
    intro q hq
    exact getFile_setFile_ne _ _ _ _ hq
  refine ⟨fun n => rfl, ?_, ?_⟩
  · intro pre p post c hgood hnodup hnedst hpost hc hbad
    have hprenodup : (pre.map (fun q =>
        srcPartFile (joinPath bucketPath objectKey) uploadId q.PartNumber)).Nodup := by
      rw [List.map_append] at hnodup
      exact (List.nodup_append.mp hnodup).1
    have hpnotpre : srcPartFile (joinPath bucketPath objectKey) uploadId p.PartNumber
        ∉ pre.map (fun q => srcPartFile (joinPath bucketPath objectKey) uploadId q.PartNumber) := by
      rw [List.map_append] at hnodup
      intro hmem
      rcases List.nodup_append.mp hnodup with ⟨_, _, hdisj⟩
      exact hdisj hmem (by simp)
    have hgood0 : ∀ q ∈ pre, partGood md5Hash
        (fs.setFile (joinPath bucketPath objectKey) [])
        (joinPath bucketPath objectKey) uploadId q := by
      intro q hq
      rcases partGood_elim (hgood q hq) with ⟨cq, hcq, he⟩
      refine partGood_intro ?_ he
      rw [hlift q (hnedst q (List.mem_append_left _ hq))]
      exact hcq
    have hnedst0 : ∀ q ∈ pre, srcPartFile (joinPath bucketPath objectKey) uploadId
        q.PartNumber ≠ joinPath bucketPath objectKey :=
      fun q hq => hnedst q (List.mem_append_left _ hq)
    rcases finilizeLoop_append md5Hash (joinPath bucketPath objectKey) uploadId removeFails
        pre (fs.setFile (joinPath bucketPath objectKey) []) (p :: post) []
        (getFile_setFile_self _ _ _) hgood0 hprenodup hnedst0 with
      ⟨fsPre, hloop, hdstPre, hotherPre, _, _⟩
    have hpnedst : srcPartFile (joinPath bucketPath objectKey) uploadId p.PartNumber
        ≠ joinPath bucketPath objectKey :=
      hnedst p (List.mem_append_right _ (List.mem_cons_self _ _))
    have hsrcp : fsPre.getFile
        (srcPartFile (joinPath bucketPath objectKey) uploadId p.PartNumber) = some c := by
      rw [hotherPre _ hpnedst (fun q hq heq => hpnotpre (heq ▸ List.mem_map_of_mem _ hq))]
      rw [hlift p hpnedst]
      exact hc
    have hstop : finilizeLoop md5Hash fsPre (joinPath bucketPath objectKey) uploadId
        removeFails (p :: post) = (FinOutcome.hashMismatch, fsPre) := by
      rw [finilizeLoop_cons, hsrcp]
      simp only [hbad, ne_eq, not_false_eq_true, if_true, ite_true]
    refine ⟨fsPre, ?_, ?_, hsrcp, ?_⟩
    · rw [hfin, hloop, hstop]
    · rw [hdstPre]
      have hcongr : pre.flatMap (fun q =>
          ((fs.setFile (joinPath bucketPath objectKey) []).getFile
            (srcPartFile (joinPath bucketPath objectKey) uploadId q.PartNumber)).getD [])
        = pre.flatMap (fun q =>
          (fs.getFile (srcPartFile (joinPath bucketPath objectKey) uploadId
            q.PartNumber)).getD []) := by
        apply flatMap_congr_mem
        intro q hq
        rw [hlift q (hnedst0 q hq)]
      rw [hcongr]
      simp
    · intro q hq
      rw [hotherPre _ (hnedst q (List.mem_append_right _ (List.mem_cons_of_mem _ hq)))
        (fun q2 hq2 heq => hpost q hq (heq ▸ List.mem_map_of_mem _ hq2))]
      exact hlift q (hnedst q (List.mem_append_right _ (List.mem_cons_of_mem _ hq)))
  · intro manifest hgood hnodup hnedst
    have hgood0 : ∀ q ∈ manifest, partGood md5Hash
        (fs.setFile (joinPath bucketPath objectKey) [])
        (joinPath bucketPath objectKey) uploadId q := by
      intro q hq
      rcases partGood_elim (hgood q hq) with ⟨cq, hcq, he⟩
      refine partGood_intro ?_ he
      rw [hlift q (hnedst q hq)]
      exact hcq
    rcases finilizeLoop_append md5Hash (joinPath bucketPath objectKey) uploadId removeFails
        manifest (fs.setFile (joinPath bucketPath objectKey) []) [] []
        (getFile_setFile_self _ _ _) hgood0 hnodup hnedst with
      ⟨fsFin, hloop, _, _, hdel, _⟩
    rw [List.append_nil] at hloop
    constructor
    · rw [hfin, hloop]
      rfl
    · intro q hq hrf
      rw [hfin, hloop]
      exact hdel q hq hrf

/-- C3 witness: a single-entry manifest whose asserted ETag differs from
the recomputed digest aborts with the mismatch outcome, truncates the
destination and leaves the part file in place. -/
theorem completeMultipart_per_entry_witness :
    (finilizeMultipartUpload md5W2 fsM "buckets/bkt" "obj" "1"
        [⟨1, "bad"⟩] (fun _ => false)).1 = FinOutcome.hashMismatch
    ∧ (finilizeMultipartUpload md5W2 fsM "buckets/bkt" "obj" "1"
        [⟨1, "bad"⟩] (fun _ => false)).2.getFile (joinPath "buckets/bkt" "obj") = some []
    ∧ (finilizeMultipartUpload md5W2 fsM "buckets/bkt" "obj" "1"
        [⟨1, "bad"⟩] (fun _ => false)).2.getFile
          (srcPartFile (joinPath "buckets/bkt" "obj") "1" 1) = some [1, 2] := by
  obtain ⟨fsk, h1, h2, h3, _⟩ :=
    (completeMultipart_per_entry_validation md5W2 fsM "buckets/bkt" "obj" "1"
        (fun _ => false) (joinPath "buckets/bkt" "obj") rfl (by decide) (by decide)).2.1
      [] ⟨1, "bad"⟩ [] [1, 2] (by decide) (by decide) (by decide) (by decide)
      (by decide) (by decide)
  rw [show ([] ++ [(⟨1, "bad"⟩ : XmlPart)] : List XmlPart)
      = [(⟨1, "bad"⟩ : XmlPart)] from rfl] at h1
  refine ⟨?_, ?_, ?_⟩
  · rw [h1]
  · rw [h1]
    simpa using h2
  · rw [h1]
    exact h3

/-- C9.  Completion opens the destination with truncate-and-create before
touching any manifest entry: with an empty parsed manifest a pre-existing
object is replaced by the empty file, and when the first failing entry is
reached, whether its part file is missing or its ETag mismatches, the
destination holds exactly the concatenation of the earlier parts and no
trace of its prior content. -/
theorem completeMultipart_truncates_destination (md5Hash : List Nat → List Nat)
    (fs : Fs) (bucketPath objectKey uploadId : String) (removeFails : String → Bool)
    (dst : String) (hdsteq : dst = joinPath bucketPath objectKey)
    (hnotdir : fs.isDir dst = false) (oldC : List Nat) (hold : fs.getFile dst = some oldC) :
    (finilizeMultipartUpload md5Hash fs bucketPath objectKey uploadId [] removeFails
        = (FinOutcome.success, fs.setFile dst []))
    ∧ (∀ (pre : List XmlPart) (p : XmlPart) (post : List XmlPart),
        (∀ q ∈ pre, partGood md5Hash fs dst uploadId q) →
        ((pre ++ [p]).map (fun q => srcPartFile dst uploadId q.PartNumber)).Nodup →
        (∀ q ∈ pre ++ [p], srcPartFile dst uploadId q.PartNumber ≠ dst) →
        fs.getFile (srcPartFile dst uploadId p.PartNumber) = none →
        (finilizeMultipartUpload md5Hash fs bucketPath objectKey uploadId
            (pre ++ p :: post) removeFails).1 = FinOutcome.readFailed
        ∧ (finilizeMultipartUpload md5Hash fs bucketPath objectKey uploadId
            (pre ++ p :: post) removeFails).2.getFile dst
          = some (pre.flatMap (fun q =>
              (fs.getFile (srcPartFile dst uploadId q.PartNumber)).getD [])))
    ∧ (∀ (pre : List XmlPart) (p : XmlPart) (post : List XmlPart) (c : List Nat),
        (∀ q ∈ pre, partGood md5Hash fs dst uploadId q) →
        ((pre ++ [p]).map (fun q => srcPartFile dst uploadId q.PartNumber)).Nodup →
        (∀ q ∈ pre ++ [p], srcPartFile dst uploadId q.PartNumber ≠ dst) →
        fs.getFile (srcPartFile dst uploadId p.PartNumber) = some c →
        p.ETag ≠ hexEncode (md5Hash c) →
        (finilizeMultipartUpload md5Hash fs bucketPath objectKey uploadId
            (pre ++ p :: post) removeFails).1 = FinOutcome.hashMismatch
        ∧ (finilizeMultipartUpload md5Hash fs bucketPath objectKey uploadId
            (pre ++ p :: post) removeFails).2.getFile dst
          = some (pre.flatMap (fun q =>
              (fs.getFile (srcPartFile dst uploadId q.PartNumber)).getD []))) := by
  subst hdsteq
  have hcond : ¬ (fs.isDir (joinPath bucketPath objectKey) = true
      ∨ ((fs.getFile (joinPath bucketPath objectKey)).isNone = true
        ∧ ¬ fs.isDir (goDir (joinPath bucketPath objectKey)) = true)) := by
    rintro (h | ⟨h1, _⟩)
    · rw [h] at hnotdir
      exact absurd hnotdir (by decide)
    · rw [hold] at h1
      simp at h1
  have hfin : ∀ m : List XmlPart,
      finilizeMultipartUpload md5Hash fs bucketPath objectKey uploadId m removeFails
        = finilizeLoop md5Hash (fs.setFile (joinPath bucketPath objectKey) [])
            (joinPath bucketPath objectKey) uploadId removeFails m := by
    intro m
    show (if _ then _ else _) = _
    rw [if_neg hcond]
  have hlift : ∀ q : XmlPart, srcPartFile (joinPath bucketPath objectKey) uploadId q.PartNumber
      ≠ joinPath bucketPath objectKey →
      (fs.setFile (joinPath bucketPath objectKey) []).getFile
        (srcPartFile (joinPath bucketPath objectKey) uploadId q.PartNumber)
      = fs.getFile (srcPartFile (joinPath bucketPath objectKey) uploadId q.PartNumber) :=
    fun q hq => getFile_setFile_ne _ _ _ _ hq
  have hmaster : ∀ (pre : List XmlPart) (p : XmlPart) (post : List XmlPart),
      (∀ q ∈ pre, partGood md5Hash fs (joinPath bucketPath objectKey) uploadId q) →
      ((pre ++ [p]).map (fun q =>
        srcPartFile (joinPath bucketPath objectKey) uploadId q.PartNumber)).Nodup →
      (∀ q ∈ pre ++ [p], srcPartFile (joinPath bucketPath objectKey) uploadId q.PartNumber
        ≠ joinPath bucketPath objectKey) →
      ∃ fsPre,
        finilizeLoop md5Hash (fs.setFile (joinPath bucketPath objectKey) [])
          (joinPath bucketPath objectKey) uploadId removeFails (pre ++ p :: post)
          = finilizeLoop md5Hash fsPre (joinPath bucketPath objectKey) uploadId
            removeFails (p :: post)
        ∧ fsPre.getFile (joinPath bucketPath objectKey)
            = some (pre.flatMap (fun q =>
                (fs.getFile (srcPartFile (joinPath bucketPath objectKey) uploadId
                  q.PartNumber)).getD []))
        ∧ fsPre.getFile (srcPartFile (joinPath bucketPath objectKey) uploadId p.PartNumber)
            = fs.getFile (srcPartFile (joinPath bucketPath objectKey) uploadId p.PartNumber) := by
    intro pre p post hgood hnodup hnedst
    have hprenodup : (pre.map (fun q =>
        srcPartFile (joinPath bucketPath objectKey) uploadId q.PartNumber)).Nodup := by
      rw [List.map_append] at hnodup
      exact (List.nodup_append.mp hnodup).1
    have hpnotpre : srcPartFile (joinPath bucketPath objectKey) uploadId p.PartNumber
        ∉ pre.map (fun q =>
          srcPartFile (joinPath bucketPath objectKey) uploadId q.PartNumber) := by
      rw [List.map_append] at hnodup
      intro hmem
      rcases List.nodup_append.mp hnodup with ⟨_, _, hdisj⟩
      exact hdisj hmem (by simp)
    have hgood0 : ∀ q ∈ pre, partGood md5Hash
        (fs.setFile (joinPath bucketPath objectKey) [])
        (joinPath bucketPath objectKey) uploadId q := by
      intro q hq
      rcases partGood_elim (hgood q hq) with ⟨cq, hcq, he⟩
      refine partGood_intro ?_ he
      rw [hlift q (hnedst q (List.mem_append_left _ hq))]
      exact hcq
    have hnedst0 : ∀ q ∈ pre, srcPartFile (joinPath bucketPath objectKey) uploadId
        q.PartNumber ≠ joinPath bucketPath objectKey :=
      fun q hq => hnedst q (List.mem_append_left _ hq)
    rcases finilizeLoop_append md5Hash (joinPath bucketPath objectKey) uploadId removeFails
        pre (fs.setFile (joinPath bucketPath objectKey) []) (p :: post) []
        (getFile_setFile_self _ _ _) hgood0 hprenodup hnedst0 with
      ⟨fsPre, hloop, hdstPre, hotherPre, _, _⟩
    have hpnedst : srcPartFile (joinPath bucketPath objectKey) uploadId p.PartNumber
        ≠ joinPath bucketPath objectKey :=
      hnedst p (List.mem_append_right _ (List.mem_cons_self _ _))
    refine ⟨fsPre, hloop, ?_, ?_⟩
    · rw [hdstPre]
      have hcongr : pre.flatMap (fun q =>
          ((fs.setFile (joinPath bucketPath objectKey) []).getFile
            (srcPartFile (joinPath bucketPath objectKey) uploadId q.PartNumber)).getD [])
        = pre.flatMap (fun q =>
          (fs.getFile (srcPartFile (joinPath bucketPath objectKey) uploadId
            q.PartNumber)).getD []) := by
        apply flatMap_congr_mem
        intro q hq
        rw [hlift q (hnedst0 q hq)]
      rw [hcongr]
      simp
    · rw [hotherPre _ hpnedst (fun q hq heq => hpnotpre (heq ▸ List.mem_map_of_mem _ hq))]
      exact hlift p hpnedst
  refine ⟨?_, ?_, ?_⟩
  · rw [hfin]
    rfl
  · intro pre p post hgood hnodup hnedst hmiss
    rcases hmaster pre p post hgood hnodup hnedst with ⟨fsPre, hloop, hdstPre, hsrcp⟩
    have hstop : finilizeLoop md5Hash fsPre (joinPath bucketPath objectKey) uploadId
        removeFails (p :: post) = (FinOutcome.readFailed, fsPre) := by
      rw [finilizeLoop_cons, hsrcp, hmiss]
    rw [hfin, hloop, hstop]
    exact ⟨rfl, hdstPre⟩
  · intro pre p post c hgood hnodup hnedst hc hbad
    rcases hmaster pre p post hgood hnodup hnedst with ⟨fsPre, hloop, hdstPre, hsrcp⟩
    have hstop : finilizeLoop md5Hash fsPre (joinPath bucketPath objectKey) uploadId
        removeFails (p :: post) = (FinOutcome.hashMismatch, fsPre) := by
      rw [finilizeLoop_cons, hsrcp, hc]
      simp only [hbad, ne_eq, not_false_eq_true, if_true, ite_true]
    rw [hfin, hloop, hstop]
    exact ⟨rfl, hdstPre⟩

/-- C9 witness: with a pre-existing three-byte object and a manifest whose
single entry has no part file, completion fails the read and the
destination is left truncated to the empty byte string. -/
theorem completeMultipart_truncates_witness :
    (finilizeMultipartUpload md5W2 fsM "buckets/bkt" "obj" "1"
        [⟨5, "x"⟩] (fun _ => false)).1 = FinOutcome.readFailed
    ∧ (finilizeMultipartUpload md5W2 fsM "buckets/bkt" "obj" "1"
        [⟨5, "x"⟩] (fun _ => false)).2.getFile (joinPath "buckets/bkt" "obj") = some [] := by
  obtain ⟨h1, h2⟩ :=
    (completeMultipart_truncates_destination md5W2 fsM "buckets/bkt" "obj" "1"
        (fun _ => false) (joinPath "buckets/bkt" "obj") rfl (by decide)
        [9, 9, 9] (by decide)).2.1
      [] ⟨5, "x"⟩ [] (by decide) (by decide) (by decide) (by decide)
  exact ⟨h1, by simpa using h2⟩

theorem expectedSignatureV4_ascii (sha256Hash : List Nat → List Nat)
    (hmacSha256 : List Nat → List Nat → List Nat) (cfg : Config) (now : TimeT)
    (r : HttpRequest) (sv : SignValues) (extracted : List (String × String)) (t : TimeT) :
    ∀ c ∈ (expectedSignatureV4 sha256Hash hmacSha256 cfg now r sv extracted t).data,
      c.toNat < 128 :=
  hexEncode_ascii _

/-- C1.  The request handler runs authenticate before dispatching to any
storage operation: quantifying over the dispatch function shows that on
any authentication failure no storage code runs, the filesystem is
returned untouched and the access-denied document is the whole response;
whenever the signature recomputed from the parsed header, the extracted
signed headers and the parsed date differs from the client-supplied one,
authenticate fails with the signature-mismatch error; authenticate can
only succeed when the recomputed signature equals the supplied one; and
the comparison primitive decides exactly byte-for-byte equality of the
two signatures, mirroring the single-pass constant-time loop of
subtle.ConstantTimeCompare. -/
theorem authentication_gates_storage
    (sha256Hash : List Nat → List Nat) (hmacSha256 : List Nat → List Nat → List Nat)
    (cfg : Config) (now : TimeT) (dispatch : HttpRequest → Fs → Resp × Fs)
    (r : HttpRequest) (fs : Fs) :
    ((authenticate sha256Hash hmacSha256 cfg now r).1 = false →
      handleRequest sha256Hash hmacSha256 cfg now dispatch r fs
        = (Resp.errorDoc .ErrAccessDenied, fs))
    ∧ (∀ (sv : SignValues) (extracted : List (String × String)) (t : TimeT),
        parseSignV4 (headerGet r "Authorization") = .ok sv →
        extractSignedHeaders sv.SignedHeaders r = .ok extracted →
        sv.Credential.accessKey = cfg.keyId →
        requestDateString r ≠ "" →
        parseISO8601 (requestDateString r) = some t →
        expectedSignatureV4 sha256Hash hmacSha256 cfg now r sv extracted t ≠ sv.Signature →
        authenticate sha256Hash hmacSha256 cfg now r
          = (false, some "ErrSignatureDoesNotMatch"))
    ∧ ((authenticate sha256Hash hmacSha256 cfg now r).1 = true →
        ∃ (sv : SignValues) (extracted : List (String × String)) (t : TimeT),
          parseSignV4 (headerGet r "Authorization") = .ok sv
          ∧ extractSignedHeaders sv.SignedHeaders r = .ok extracted
          ∧ parseISO8601 (requestDateString r) = some t
          ∧ expectedSignatureV4 sha256Hash hmacSha256 cfg now r sv extracted t
              = sv.Signature)
    ∧ (∀ s1 s2 : String,
        compareSignatureV4 s1 s2 = true ↔ strBytes s1 = strBytes s2) := by
  refine ⟨?_, ?_, ?_, fun s1 s2 => (compareSignatureV4_iff s1 s2).1⟩
  · intro h
    unfold handleRequest
    rw [if_pos]
    rw [h]
    simp
  · intro sv extracted t hparse hextract hkey hdate ht hneq
    unfold authenticate
    rw [hparse]
    dsimp only
    rw [hextract]
    dsimp only
    rw [if_neg (by simp [hkey]), if_neg hdate, ht]
    dsimp only
    rw [if_neg]
    intro hcmp
    exact hneq (((compareSignatureV4_iff _ _).2
      (expectedSignatureV4_ascii sha256Hash hmacSha256 cfg now r sv extracted t)).1 hcmp)
  · intro h
    unfold authenticate at h
    cases hparse : parseSignV4 (headerGet r "Authorization") with
    | error e =>
      rw [hparse] at h
      simp at h
    | ok sv =>
      rw [hparse] at h
      dsimp only at h
      cases hextract : extractSignedHeaders sv.SignedHeaders r with
      | error e =>
        rw [hextract] at h
        simp at h
      | ok extracted =>
        rw [hextract] at h
        dsimp only at h
        by_cases hkey : sv.Credential.accessKey ≠ cfg.keyId
        · rw [if_pos hkey] at h
          simp at h
        · rw [if_neg hkey] at h
          by_cases hdate : requestDateString r = ""
          · rw [if_pos hdate] at h
            simp at h
          · rw [if_neg hdate] at h
            cases ht : parseISO8601 (requestDateString r) with
            | none =>
              rw [ht] at h
              simp at h
            | some t =>
              rw [ht] at h
              dsimp only at h
              by_cases hcmp : compareSignatureV4
                  (expectedSignatureV4 sha256Hash hmacSha256 cfg now r sv extracted t)
                  sv.Signature = true
              · exact ⟨sv, extracted, t, rfl, hextract, rfl,
                  ((compareSignatureV4_iff _ _).2
                    (expectedSignatureV4_ascii sha256Hash hmacSha256 cfg now r sv
                      extracted t)).1 hcmp⟩
              · rw [if_neg hcmp] at h
                simp at h

def shaW : List Nat → List Nat := fun _ => []

def hmacW : List Nat → List Nat → List Nat := fun _ _ => []

def cfgW : Config := { keyId := "AKID", secretKey := "sk", s3region := "us-east-1" }

def nowW : TimeT := ⟨2024, 1, 1, 0, 0, 0⟩

def reqW : HttpRequest :=
  { method := "GET", path := "/bkt/obj.txt", rawQuery := "", queryParams := []
    headers := [("Authorization",
        "AWS4-HMAC-SHA256 Credential=AKID/20240101/us-east-1/s3/aws4_request, SignedHeaders=host, Signature=deadbeef"),
      ("X-Amz-Date", "20240101T000000Z")]
    host := "h", contentLength := 0, transferEncoding := [], body := [] }

def dispatchW : HttpRequest → Fs → Resp × Fs := fun _ fs => (Resp.content 200 none [], fs)

def svW : SignValues :=
  { Credential :=
      { accessKey := "AKID"
        scope := { date := ⟨2024, 1, 1, 0, 0, 0⟩, region := "us-east-1"
                   service := "s3", request := "aws4_request" } }
    SignedHeaders := ["host"]
    Signature := "deadbeef" }

def extractedW : List (String × String) := [("Host", "h")]

/-- C1 witness: a fully parseable signed request whose recomputed
signature differs from the supplied one is refused by authenticate with
the signature-mismatch error, and the gated handler answers access denied
leaving the filesystem untouched. -/
theorem authentication_gates_storage_witness :
    authenticate shaW hmacW cfgW nowW reqW = (false, some "ErrSignatureDoesNotMatch")
    ∧ handleRequest shaW hmacW cfgW nowW dispatchW reqW fsW1
        = (Resp.errorDoc .ErrAccessDenied, fsW1) := by
  have h := authentication_gates_storage shaW hmacW cfgW nowW dispatchW reqW fsW1
  have hauth := h.2.1 svW extractedW ⟨2024, 1, 1, 0, 0, 0⟩
    (by rfl) (by rfl) (by decide) (by decide) (by decide) (by decide)
  exact ⟨hauth, h.1 (by rw [hauth])⟩
